import Mathlib

/-!
Verification development for the `sakd` task tracker (Rust sources under
`src/`).  The Rust code is shallowly embedded: dates are modelled as integer
day numbers (day 0 = 1970-01-01, a Thursday), instants as integer seconds,
times of day as seconds since midnight.  Machine `i64` parsing keeps its
range check; `f64` score arithmetic in the suggestion scorer only ever
touches small whole numbers, so it is modelled exactly on `Int`.
-/

namespace Sakd

/-! ## Model of `src/utils.rs` -/

/-- Model of Rust `str::to_lowercase` (ASCII-relevant part: the shortcut
tokens and numerals the parser inspects are ASCII). -/
def strToLower (s : String) : String :=
  String.mk (s.data.map Char.toLower)

/-- The decimal digit character for `d < 10`. -/
def digitChar (d : Nat) : Char :=
  Char.ofNat (48 + d)

/-- Value of a decimal digit character, `Option.none` on non-digits. -/
def digitVal? (c : Char) : Option Nat :=
  if 48 ≤ c.toNat ∧ c.toNat ≤ 57 then some (c.toNat - 48) else Option.none

/-- Left-to-right accumulation of decimal digits, failing on a non-digit. -/
def parseNatCore : List Char → Nat → Option Nat
  | [], acc => some acc
  | c :: cs, acc =>
    match digitVal? c with
    | some d => parseNatCore cs (acc * 10 + d)
    | Option.none => Option.none

/-- A non-empty all-digit run parsed as a natural number. -/
def parseNatChars : List Char → Option Nat
  | [] => Option.none
  | c :: cs => parseNatCore (c :: cs) 0

/-- Model of Rust `i64::from_str`: optional sign, then digits, with the
`i64` range check (`-2^63 ..= 2^63 - 1`). -/
def parseI64 (cs : List Char) : Option Int :=
  match cs with
  | [] => Option.none
  | c :: rest =>
    if c = '-' then
      (parseNatChars rest).bind fun n =>
        if (n : Int) ≤ 2 ^ 63 then some (-(n : Int)) else Option.none
    else if c = '+' then
      (parseNatChars rest).bind fun n =>
        if (n : Int) < 2 ^ 63 then some ((n : Int)) else Option.none
    else
      (parseNatChars (c :: rest)).bind fun n =>
        if (n : Int) < 2 ^ 63 then some ((n : Int)) else Option.none

/-- Decimal digits of `n`, most significant first: the canonical text an
operator types for the `<N>` part of the `<N>d` / `<N>w` shortcuts. -/
def renderNat (n : Nat) : List Char :=
  if n < 10 then [digitChar n]
  else renderNat (n / 10) ++ [digitChar (n % 10)]
decreasing_by exact Nat.div_lt_self (by omega) (by omega)

/-- Canonical decimal rendering of an integer (optional leading minus). -/
def renderInt (n : Int) : String :=
  String.mk (if n < 0 then '-' :: renderNat n.natAbs else renderNat n.natAbs)

/-- Weekday of a day number, `0 = Monday .. 6 = Sunday` (chrono's
`num_days_from_monday` convention); day 0 = 1970-01-01 is a Thursday. -/
def weekday (d : Int) : Int :=
  (d + 3) % 7

/-- The `match` on weekday names in `parse_shortcut_date`. -/
def weekdayOfName (s : String) : Option Int :=
  if s = "mon" then some 0
  else if s = "tue" then some 1
  else if s = "wed" then some 2
  else if s = "thu" then some 3
  else if s = "fri" then some 4
  else if s = "sat" then some 5
  else if s = "sun" then some 6
  else Option.none

/-- The `while date.weekday() != target` loop of `parse_shortcut_date`,
with explicit fuel.  The Rust loop always terminates within 7 steps
(weekdays have period 7); `nextWeekdaySearch_succeeds` below shows fuel 7
never runs out, so the `Option.none` branch is unreachable. -/
def nextWeekdaySearch (target : Int) : Nat → Int → Option Int
  | 0, _ => Option.none
  | fuel + 1, d => if weekday d = target then some d else nextWeekdaySearch target fuel (d + 1)

/-- Model of `utils::parse_shortcut_date`'s return value on the inputs
where no date arithmetic panics.  `now` is today's day number
(`Local::now().date_naive()`).  The panic paths of the source's
`now + Duration::days(..)` arithmetic (chrono's calendar and duration
ranges, i64 overflow of `n * 7`) are modelled separately by
`parse_shortcut_date_checked` below, of which this is the panic-free
projection (`parse_shortcut_date_agrees`). -/
def parse_shortcut_date (now : Int) (s0 : String) : Option Int :=
  let s := strToLower s0
  if s = "today" ∨ s = "t" then some now
  else if s = "tomorrow" ∨ s = "tm" then some (now + 1)
  else
    let dCase : Option Int :=
      if s.data.getLast? = some 'd' then (parseI64 s.data.dropLast).map (fun n => now + n)
      else Option.none
    match dCase with
    | some r => some r
    | Option.none =>
      let wCase : Option Int :=
        if s.data.getLast? = some 'w' then (parseI64 s.data.dropLast).map (fun n => now + n * 7)
        else Option.none
      match wCase with
      | some r => some r
      | Option.none =>
        match weekdayOfName s with
        | some target => nextWeekdaySearch target 7 (now + 1)
        | Option.none => Option.none

/-- Model of `utils::parse_shortcut_time`; times of day are seconds since
midnight, `nowTod` is the current local time of day.  `[N]h` shifts the
current moment by `N` hours and keeps its time of day, i.e. adds `3600·N`
seconds modulo a day. -/
def parse_shortcut_time (nowTod : Nat) (s0 : String) : Option Nat :=
  let s := strToLower s0
  if s = "last" then some (23 * 3600 + 59 * 60)
  else if s = "morning" then some (9 * 3600)
  else if s = "noon" then some (12 * 3600)
  else if s = "evening" then some (18 * 3600)
  else if s = "night" then some (21 * 3600)
  else if s.data.getLast? = some 'h' then
    (parseI64 s.data.dropLast).map fun n => (((nowTod : Int) + n * 3600) % 86400).toNat
  else Option.none

/-- Splitting on a separator character (Rust `str::split(c)`). -/
def splitOnChar (sep : Char) : List Char → List (List Char)
  | [] => [[]]
  | c :: cs =>
    if c = sep then [] :: splitOnChar sep cs
    else
      match splitOnChar sep cs with
      | [] => [[c]]
      | g :: gs => (c :: g) :: gs

/-- ASCII whitespace test (the characters Rust `str::trim` strips that can
occur in these inputs). -/
def isWs (c : Char) : Bool :=
  c = ' ' ∨ c = '\t' ∨ c = '\n' ∨ c = '\r'

/-- Rust `str::trim` on a character list. -/
def trimChars (cs : List Char) : List Char :=
  ((cs.dropWhile isWs).reverse.dropWhile isWs).reverse

/-- Rust `str::trim`. -/
def strTrim (s : String) : String :=
  String.mk (trimChars s.data)

/-- Model of `NaiveTime::parse_from_str(s, "%H:%M")`: hour and minute
fields separated by `:`, full-string match, `H < 24`, `M < 60`. -/
def parseHM (s : String) : Option Nat :=
  match splitOnChar ':' s.data with
  | [h, m] =>
    match parseNatChars h, parseNatChars m with
    | some hv, some mv => if hv < 24 ∧ mv < 60 then some (hv * 3600 + mv * 60) else Option.none
    | _, _ => Option.none
  | _ => Option.none

def isLeap (y : Int) : Bool :=
  (y % 4 = 0 ∧ y % 100 ≠ 0) ∨ y % 400 = 0

def daysInMonth (y m : Int) : Int :=
  if m = 2 then (if isLeap y then 29 else 28)
  else if m = 4 ∨ m = 6 ∨ m = 9 ∨ m = 11 then 30
  else 31

/-- Proleptic-Gregorian civil date to day number (day 0 = 1970-01-01),
the arithmetic underlying chrono's `NaiveDate`. -/
def daysFromCivil (y m d : Int) : Int :=
  let y' := if m ≤ 2 then y - 1 else y
  let era := Int.fdiv y' 400
  let yoe := y' - era * 400
  let mp := if m > 2 then m - 3 else m + 9
  let doy := Int.fdiv (153 * mp + 2) 5 + d - 1
  let doe := yoe * 365 + Int.fdiv yoe 4 - Int.fdiv yoe 100 + doy
  era * 146097 + doe - 719468

/-- Model of `NaiveDate::parse_from_str(s, "%Y-%m-%d")` (non-negative
years; calendar validity checked as chrono does). -/
def parseYmd (s : String) : Option Int :=
  match splitOnChar '-' s.data with
  | [ys, ms, ds] =>
    match parseNatChars ys, parseNatChars ms, parseNatChars ds with
    | some y, some m, some d =>
      if 1 ≤ (m : Int) ∧ (m : Int) ≤ 12 ∧ 1 ≤ (d : Int) ∧ (d : Int) ≤ daysInMonth y m then
        some (daysFromCivil y m d)
      else Option.none
    | _, _, _ => Option.none
  | _ => Option.none

/-- Outcome of one `parse_shortcut_date` call with the panic paths of the
date arithmetic made explicit: `ok`/`noParse` are the source's
`Some`/`None`, `panicked` is a chrono or arithmetic panic. -/
inductive DateResult where
  | ok : Int → DateResult
  | noParse : DateResult
  | panicked : DateResult
deriving DecidableEq

/-- First day chrono's `NaiveDate` can represent (January 1 of year
-262144), as a day number. -/
def naiveDateMinDay : Int := daysFromCivil (-262144) 1 1

/-- Last day chrono's `NaiveDate` can represent (December 31 of year
262143), as a day number. -/
def naiveDateMaxDay : Int := daysFromCivil 262143 12 31

/-- Largest whole-day magnitude a chrono `Duration` can hold
(`i64::MAX` milliseconds, truncated to days): `Duration::days(n)` panics
for `|n|` beyond this. -/
def durDaysMax : Int := 106751991167

/-- `now + Duration::days(n)` with chrono's panic paths: `Duration::days`
panics outside the duration day range, and `NaiveDate + Duration` panics
when the result leaves the calendar range. -/
def checkedDays (now n : Int) : DateResult :=
  if n < -durDaysMax ∨ durDaysMax < n then .panicked
  else if now + n < naiveDateMinDay ∨ naiveDateMaxDay < now + n then .panicked
  else .ok (now + n)

/-- The weekday `while` loop with the panic check of each
`date += Duration::days(1)` step.  Fuel 0 is unreachable (a matching
weekday occurs within 7 steps, cf. `nextWeekdaySearch_finds`). -/
def weekdaySearchChecked (target : Int) : Nat → Int → DateResult
  | 0, _ => .panicked
  | fuel + 1, d =>
    if weekday d = target then .ok d
    else if d + 1 < naiveDateMinDay ∨ naiveDateMaxDay < d + 1 then .panicked
    else weekdaySearchChecked target fuel (d + 1)

/-- `utils::parse_shortcut_date` with the panic paths modelled: chrono's
`Duration::days` bound, the `NaiveDate` calendar range on every date
addition, and i64 overflow of the `n * 7` multiplication in the `<N>w`
branch (checked arithmetic, the default dev-profile semantics; a wrapping
release build would produce a different date, not `today + 7N`, so under
either semantics the overflow region falls outside the claim).
`parse_shortcut_date` above is the panic-free projection of this model:
wherever this returns `ok d` / `noParse`, that returns `some d` / `none`
(`parse_shortcut_date_agrees`). -/
def parse_shortcut_date_checked (now : Int) (s0 : String) : DateResult :=
  let s := strToLower s0
  if s = "today" ∨ s = "t" then .ok now
  else if s = "tomorrow" ∨ s = "tm" then
    (if now + 1 < naiveDateMinDay ∨ naiveDateMaxDay < now + 1 then .panicked
     else .ok (now + 1))
  else
    let dCase : Option DateResult :=
      if s.data.getLast? = some 'd' then
        (parseI64 s.data.dropLast).map fun n => checkedDays now n
      else Option.none
    match dCase with
    | some r => r
    | Option.none =>
      let wCase : Option DateResult :=
        if s.data.getLast? = some 'w' then
          (parseI64 s.data.dropLast).map fun n =>
            if n * 7 < -(2 ^ 63) ∨ 2 ^ 63 ≤ n * 7 then .panicked
            else checkedDays now (n * 7)
        else Option.none
      match wCase with
      | some r => r
      | Option.none =>
        match weekdayOfName s with
        | some target =>
          if now + 1 < naiveDateMinDay ∨ naiveDateMaxDay < now + 1 then .panicked
          else weekdaySearchChecked target 7 (now + 1)
        | Option.none => .noParse

/-- Outcome of mapping a local civil datetime to an absolute instant,
modelling chrono's `LocalResult` from `Local.from_local_datetime`. -/
inductive LocalResult where
  | invalid : LocalResult
  | single : Int → LocalResult
  | ambiguous : Int → Int → LocalResult
deriving DecidableEq

/-- Model of `LocalResult::single()` (followed in the source by the
conversion to UTC, which is folded into the instant the timezone map
returns). -/
def LocalResult.single? : LocalResult → Option Int
  | .single t => some t
  | _ => Option.none

/-- Model of `utils::parse_full_date_time`.  The operator's local timezone
is the parameter `tz`, mapping a civil (day, time-of-day) pair to a
`LocalResult` of UTC instants. -/
def parse_full_date_time (now : Int) (nowTod : Nat) (tz : Int → Nat → LocalResult)
    (date_str time_str : String) : Option Int :=
  if strTrim date_str = "" then Option.none
  else
    match (parse_shortcut_date now date_str).orElse (fun _ => parseYmd date_str) with
    | Option.none => Option.none
    | some date =>
      let time : Nat :=
        if strTrim time_str = "" then 23 * 3600 + 59 * 60
        else ((parse_shortcut_time nowTod time_str).orElse
            (fun _ => parseHM time_str)).getD (23 * 3600 + 59 * 60)
      (tz date time).single?

/-! ## Model of `src/db.rs` data types -/

inductive Priority where
  | High
  | Medium
  | Low
  | None
deriving DecidableEq

/-- `Priority::to_int`. -/
def Priority.to_int : Priority → Int
  | .High => 3
  | .Medium => 2
  | .Low => 1
  | .None => 0

/-- A task row as loaded into the in-memory cache (`db::Task`).  `limit` is
the optional due instant in UTC seconds. -/
structure Task where
  id : Int
  title : String
  is_done : Bool
  limit : Option Int
  description : Option String
  priority : Priority
  tags : List String
  dependencies : List Int
deriving DecidableEq

/-! ## Model of `src/tui.rs` state -/

inductive PopupStep where
  | Title
  | Priority
  | Tags
  | Dependencies
  | Date
  | Time
  | Description
deriving DecidableEq

inductive SortOrder where
  | Limit
  | Priority
  | Id
deriving DecidableEq

inductive InputMode where
  | Normal
  | Adding : PopupStep → InputMode
  | Editing : Int → PopupStep → InputMode
  | Deleting : Int → InputMode
  | FilteringTag
  | FilteringPriority
deriving DecidableEq

structure PopupData where
  title : String
  priority : String
  tags : String
  dependencies : String
  date : String
  time : String
  description : String
deriving DecidableEq

/-- `PopupData::default()`. -/
def PopupData.default : PopupData :=
  { title := "", priority := "None", tags := "", dependencies := "",
    date := "", time := "", description := "" }

/-- The `App` struct.  `selected` is `ListState::selected()`; the SQLite
connection is not a field here — storage interactions are threaded
explicitly through the operations that perform them. -/
structure App where
  tasks : List Task
  filtered_tasks : List Task
  selected : Option Nat
  input_mode : InputMode
  input_buffer : String
  popup_data : PopupData
  show_done : Bool
  tag_filter : Option String
  priority_filter : Option Priority
  sort_order : SortOrder
deriving DecidableEq

/-! ## Projection (`App::update_filtered_tasks`) -/

/-- Substring test on character lists, modelling Rust `str::contains` with
a string needle. -/
def listContainsSub (needle : List Char) : List Char → Bool
  | [] => needle.isEmpty
  | c :: rest => needle.isPrefixOf (c :: rest) || listContainsSub needle rest

/-- `hay.contains(needle)` on strings. -/
def strContainsSub (hay needle : String) : Bool :=
  listContainsSub needle.data hay.data

/-- The three `.filter` predicates of `update_filtered_tasks`, conjoined. -/
def taskMatchesFilters (app : App) (t : Task) : Bool :=
  (app.show_done || !t.is_done)
  && (match app.tag_filter with
      | Option.none => true
      | some f => t.tags.any fun tag => strContainsSub (strToLower tag) (strToLower f))
  && (match app.priority_filter with
      | Option.none => true
      | some f => t.priority == f)

/-- `false < true`, as in Rust `bool::cmp`. -/
def cmpBool (a b : Bool) : Ordering :=
  if a = b then .eq else if a then .gt else .lt

def cmpInt (a b : Int) : Ordering :=
  if a < b then .lt else if a = b then .eq else .gt

/-- Rust `Option` ordering: `None < Some _`. -/
def cmpOptInt : Option Int → Option Int → Ordering
  | Option.none, Option.none => .eq
  | Option.none, some _ => .lt
  | some _, Option.none => .gt
  | some a, some b => cmpInt a b

/-- The three comparators passed to `sort_by` in `update_filtered_tasks`. -/
def taskCmp : SortOrder → Task → Task → Ordering
  | .Limit, a, b =>
    (cmpBool a.is_done b.is_done).then
      ((cmpBool a.limit.isNone b.limit.isNone).then (cmpOptInt a.limit b.limit))
  | .Priority, a, b =>
    (cmpBool a.is_done b.is_done).then (cmpInt b.priority.to_int a.priority.to_int)
  | .Id, a, b =>
    (cmpBool a.is_done b.is_done).then (cmpInt a.id b.id)

/-- `a` may come before `b`: the comparator does not say `Greater`. -/
def taskLe (o : SortOrder) (a b : Task) : Bool :=
  !(taskCmp o a b == .gt)

/-- Rust `slice::sort_by` is a stable sort; for a total preorder every
stable sort computes the same list, so it is modelled by stable insertion
sort (`List.orderedInsert` places an element before the first strictly
greater one, preserving the order of ties). -/
def sortTasks (o : SortOrder) (l : List Task) : List Task :=
  List.insertionSort (fun a b => taskLe o a b = true) l

/-- The filtered, sorted projection recomputed by `update_filtered_tasks`. -/
def projection (app : App) : List Task :=
  sortTasks app.sort_order (app.tasks.filter (taskMatchesFilters app))

/-- The cursor-relocation logic of `update_filtered_tasks`: re-locate the
previously selected task's id, fall back to the clamped old index, fall
back to index 0. -/
def relocate (oldSelected : Option Nat) (oldFiltered newFiltered : List Task) : Option Nat :=
  let selected_id := oldSelected.bind fun i => (oldFiltered[i]?).map fun t => t.id
  let sel1 : Option Nat :=
    match selected_id with
    | some id =>
      match newFiltered.findIdx? (fun t => t.id == id) with
      | some newIndex => some newIndex
      | Option.none =>
        match oldSelected with
        | some i =>
          if newFiltered.isEmpty then Option.none
          else some (min i (newFiltered.length - 1))
        | Option.none => oldSelected
    | Option.none => oldSelected
  if sel1.isNone && !newFiltered.isEmpty then some 0 else sel1

/-- `App::update_filtered_tasks`. -/
def update_filtered_tasks (app : App) : App :=
  { app with
    filtered_tasks := projection app
    selected := relocate app.selected app.filtered_tasks (projection app) }

/-! ## Navigation and Normal-mode operations -/

/-- `App::refresh_tasks`, with the rows returned by `db::get_tasks`
passed in (`loaded`). -/
def refresh_tasks (app : App) (loaded : List Task) : App :=
  update_filtered_tasks { app with tasks := loaded }

/-- `App::toggle_done_visibility`. -/
def toggle_done_visibility (app : App) : App :=
  update_filtered_tasks { app with show_done := !app.show_done }

/-- `App::cycle_sort_order`. -/
def cycle_sort_order (app : App) : App :=
  update_filtered_tasks
    { app with
      sort_order :=
        match app.sort_order with
        | .Limit => .Priority
        | .Priority => .Id
        | .Id => .Limit }

/-- `App::next`. -/
def next (app : App) : App :=
  if app.filtered_tasks.isEmpty then app
  else
    let i :=
      match app.selected with
      | some i => if i ≥ app.filtered_tasks.length - 1 then 0 else i + 1
      | Option.none => 0
    { app with selected := some i }

/-- `App::previous`. -/
def previous (app : App) : App :=
  if app.filtered_tasks.isEmpty then app
  else
    let i :=
      match app.selected with
      | some i => if i = 0 then app.filtered_tasks.length - 1 else i - 1
      | Option.none => 0
    { app with selected := some i }

/-! ## Completion toggling and storage failures

Storage calls are synchronous `rusqlite` calls returning `Result`; each
call site's outcome is passed in as an `Except String Unit`/value.  A Rust
`?` that propagates an I/O error is modelled by an explicit `err` result
carrying the `App` state at the propagation point (the `&mut self`
mutations already performed are kept, exactly as in Rust). -/

/-- Result of an operation that can hit a storage error or an
out-of-bounds slice index (a Rust panic). -/
inductive OpResult (α : Type) where
  | ok : α → OpResult α
  | err : String → α → OpResult α
  | panicked : OpResult α
deriving DecidableEq

/-- `self.tasks.iter_mut().find(|t| t.id == task_id)` followed by the
`is_done` flip: flips the first task with the given id, if any. -/
def flipFirst (id : Int) : List Task → List Task
  | [] => []
  | t :: ts =>
    if t.id == id then { t with is_done := !t.is_done } :: ts
    else t :: flipFirst id ts

/-- `App::toggle_status`.  `dbOutcome` is the result of the
`db::update_task` call (reached only when a task with the selected id is
in the cache).  Indexing `filtered_tasks[i]` out of bounds is the panic
branch. -/
def toggle_status (app : App) (dbOutcome : Except String Unit) : OpResult App :=
  match app.selected with
  | Option.none => .ok app
  | some i =>
    match app.filtered_tasks[i]? with
    | Option.none => .panicked
    | some sel =>
      let task_id := sel.id
      if app.tasks.any (fun t => t.id == task_id) then
        let tasks' := flipFirst task_id app.tasks
        match dbOutcome with
        | .error e => .err e { app with tasks := tasks' }
        | .ok _ => .ok (update_filtered_tasks { app with tasks := tasks' })
      else .ok (update_filtered_tasks app)

/-! ## Entry flow (`start_add_popup`, `start_edit_popup`, steps, save) -/

/-- `App::start_add_popup`. -/
def start_add_popup (app : App) : App :=
  { app with
    popup_data :=
      { title := "", priority := " ", tags := "", dependencies := "",
        date := "", time := "", description := "" }
    input_buffer := ""
    input_mode := .Adding .Title }

/-- `format!("{:?}", priority)` for the non-`None` priorities. -/
def formatPriority : Priority → String
  | .High => "High"
  | .Medium => "Medium"
  | .Low => "Low"
  | .None => "None"

/-- `App::start_edit_popup`.  `fmtDate`/`fmtTime` render the stored due
instant in the operator's local timezone (`%Y-%m-%d` / `%H:%M`); the
rendering itself is an opaque parameter of the model.  The result is
`Option.none` exactly on the `filtered_tasks[i]` out-of-bounds panic. -/
def start_edit_popup (fmtDate fmtTime : Int → String) (app : App) : Option App :=
  match app.selected with
  | Option.none => some app
  | some i =>
    match app.filtered_tasks[i]? with
    | Option.none => Option.none
    | some task =>
      some { app with
        popup_data :=
          { title := task.title
            priority := if task.priority == Priority.None then " " else formatPriority task.priority
            tags := String.intercalate ", " task.tags
            dependencies := String.intercalate ", " (task.dependencies.map toString)
            date := (task.limit.map fmtDate).getD ""
            time := (task.limit.map fmtTime).getD ""
            description := task.description.getD "" }
        input_buffer := task.title
        input_mode := .Editing task.id .Title }

/-- Modelled from the spec: `utils::parse_priority` is called from the TUI
but its definition is not among the provided sources.  Spec §4.3: priority
text maps to the fixed set case-insensitively, unrecognized text maps to
"none". -/
def parse_priority (s : String) : Priority :=
  let l := strToLower s
  if l = "high" then .High
  else if l = "medium" then .Medium
  else if l = "low" then .Low
  else .None

/-- Modelled from the spec: `utils::parse_tags` is called from the TUI but
its definition is not among the provided sources.  Spec §4.3: tags are a
comma-separated list, trimmed, empty entries dropped. -/
def parse_tags (s : String) : List String :=
  (((splitOnChar ',' s.data).map trimChars).filter fun t => !t.isEmpty).map String.mk

/-- The dependency-id parsing inlined in `save_popup`:
`split(',').filter_map(|s| s.trim().parse::<i64>().ok())`. -/
def parseDeps (s : String) : List Int :=
  (splitOnChar ',' s.data).filterMap fun t => parseI64 (trimChars t)

/-- The storage tables, as far as the TUI observes them: the task rows and
the id the next `INSERT` will receive (SQLite row ids are never reused
within a session). -/
structure DB where
  rows : List Task
  next_id : Int
deriving DecidableEq

/-- `db::add_task`. -/
def db_add_task (db : DB) (title : String) (limit : Option Int) (description : Option String)
    (priority : Priority) (tags : List String) (dependencies : List Int) : DB :=
  { rows := db.rows ++
      [{ id := db.next_id, title := title, is_done := false, limit := limit,
         description := description, priority := priority, tags := tags,
         dependencies := dependencies }]
    next_id := db.next_id + 1 }

/-- `db::get_task`. -/
def db_get_task (db : DB) (id : Int) : Option Task :=
  db.rows.find? fun t => t.id == id

/-- `db::update_task`. -/
def db_update_task (db : DB) (task : Task) : DB :=
  { db with rows := db.rows.map fun t => if t.id == task.id then task else t }

/-- `db::delete_task`. -/
def db_delete_task (db : DB) (id : Int) : DB :=
  { db with rows := db.rows.filter fun t => !(t.id == id) }

/-- `db::get_tasks` (its SQL `ORDER BY` clause is not modelled; the
projection re-sorts on every recomputation). -/
def db_get_tasks (db : DB) : List Task :=
  db.rows

/-- `App::save_popup` (storage assumed to succeed here; failing storage is
analysed on the toggle path, where the claim sources point). -/
def save_popup (now : Int) (nowTod : Nat) (tz : Int → Nat → LocalResult)
    (db : DB) (app : App) : DB × App :=
  let date_str := strTrim app.popup_data.date
  let time_str := strTrim app.popup_data.time
  let limit :=
    if date_str = "" then Option.none
    else parse_full_date_time now nowTod tz date_str (if time_str = "" then "23:59" else time_str)
  let description :=
    if app.popup_data.description = "" then Option.none else some app.popup_data.description
  let priority := parse_priority app.popup_data.priority
  let tags := parse_tags app.popup_data.tags
  let dependencies := parseDeps app.popup_data.dependencies
  match app.input_mode with
  | .Adding _ =>
    let db' := db_add_task db app.popup_data.title limit description priority tags dependencies
    (db', refresh_tasks app (db_get_tasks db'))
  | .Editing id _ =>
    match db_get_task db id with
    | some task =>
      let db' := db_update_task db
        { task with
          title := app.popup_data.title, limit := limit, description := description,
          priority := priority, tags := tags, dependencies := dependencies }
      (db', refresh_tasks app (db_get_tasks db'))
    | Option.none => (db, refresh_tasks app (db_get_tasks db))
  | _ => (db, refresh_tasks app (db_get_tasks db))

/-- The `(next_step, is_done)` table of `next_popup_step`. -/
def stepAdvance : PopupStep → PopupStep × Bool
  | .Title => (.Priority, false)
  | .Priority => (.Tags, false)
  | .Tags => (.Dependencies, false)
  | .Dependencies => (.Date, false)
  | .Date => (.Time, false)
  | .Time => (.Description, false)
  | .Description => (.Description, true)

/-- Committing the input buffer into the field of the active step. -/
def commitBuffer (pd : PopupData) (step : PopupStep) (buf : String) : PopupData :=
  match step with
  | .Title => { pd with title := buf }
  | .Priority => { pd with priority := buf }
  | .Tags => { pd with tags := buf }
  | .Dependencies => { pd with dependencies := buf }
  | .Date => { pd with date := buf }
  | .Time => { pd with time := buf }
  | .Description => { pd with description := buf }

/-- Seeding the buffer with the next field's current value. -/
def bufferFor (pd : PopupData) : PopupStep → String
  | .Title => pd.title
  | .Priority => pd.priority
  | .Tags => pd.tags
  | .Dependencies => pd.dependencies
  | .Date => pd.date
  | .Time => pd.time
  | .Description => pd.description

/-- Replacing the step inside `Adding`/`Editing`. -/
def setStep (m : InputMode) (s : PopupStep) : InputMode :=
  match m with
  | .Adding _ => .Adding s
  | .Editing id _ => .Editing id s
  | m => m

/-- `App::next_popup_step`. -/
def next_popup_step (now : Int) (nowTod : Nat) (tz : Int → Nat → LocalResult)
    (db : DB) (app : App) : DB × App :=
  match app.input_mode with
  | .Adding step | .Editing _ step =>
    let app1 := { app with popup_data := commitBuffer app.popup_data step app.input_buffer }
    let nxt := (stepAdvance step).1
    if (stepAdvance step).2 then
      let (db', app2) := save_popup now nowTod tz db app1
      (db', { app2 with input_mode := .Normal, input_buffer := "" })
    else
      (db, { app1 with
        input_mode := setStep app1.input_mode nxt
        input_buffer := bufferFor app1.popup_data nxt })
  | _ => (db, app)

/-! ## Suggestion scorer (`App::jump_to_suggestion`) -/

/-- One incomplete task's score.  The Rust code computes it in `f64`, but
every value involved is a small whole number, so `Int` arithmetic is
exact.  `num_hours()` truncates the signed duration toward zero, which is
`Int.tdiv` on seconds. -/
def suggestion_score (now : Int) (t : Task) : Int :=
  let base : Int :=
    match t.priority with
    | .High => 30
    | .Medium => 20
    | .Low => 10
    | .None => 0
  match t.limit with
  | Option.none => base
  | some limit =>
    let diff := Int.tdiv (limit - now) 3600
    if diff < 0 then base + 50
    else if diff < 24 then base + 40
    else if diff < 72 then base + 20
    else base

/-- The scan over `self.tasks` in `jump_to_suggestion`, carrying
`best_id` and `best_score` (initially `None` and `-1`). -/
def suggestionLoop (now : Int) : List Task → Option Int → Int → Option Int
  | [], best_id, _ => best_id
  | t :: ts, best_id, best_score =>
    if t.is_done then suggestionLoop now ts best_id best_score
    else
      let score := suggestion_score now t
      if best_score < score then suggestionLoop now ts (some t.id) score
      else suggestionLoop now ts best_id best_score

/-- The id computed by the scan in `jump_to_suggestion`. -/
def best_suggestion (now : Int) (tasks : List Task) : Option Int :=
  suggestionLoop now tasks Option.none (-1)

/-- `App::jump_to_suggestion`. -/
def jump_to_suggestion (now : Int) (app : App) : App :=
  match best_suggestion now app.tasks with
  | some id =>
    match app.filtered_tasks.findIdx? (fun t => t.id == id) with
    | some pos => { app with selected := some pos }
    | Option.none => app
  | Option.none => app

/-! ## The interaction loop (`run_app`) -/

/-- Key events, named after the Normal-mode bindings that matter to the
claims (`q`, `j`/`k`, Space/Enter, `r`, `h`, `a`, `e`, `s`, `o`, `f`,
`p`); `esc`, `enter`, printable characters and backspace drive the modal
states. -/
inductive Key where
  | quitK | navDown | navUp | toggleK | deleteK | hideK | addK | editK
  | suggestK | sortK | tagFilterK | priFilterK
  | enter | esc | backspace
  | char : Char → Key
  | other
deriving DecidableEq

/-- What one iteration of `run_app`'s event match does with the program:
keep looping with a new state, return `TuiEvent::Quit`, propagate a
storage error out of the loop (after which `run_tui` returns it and the
binary's `expect` aborts the process), or panic. -/
inductive LoopStep where
  | cont : App → LoopStep
  | quit : App → LoopStep
  | fatal : String → App → LoopStep
  | panicked : LoopStep
deriving DecidableEq

/-- The `KeyCode::Char('r')` arm of the Normal-mode match: capture the id
under the cursor and enter `Deleting`. -/
def startDeleteKey (app : App) : Option App :=
  match app.selected with
  | Option.none => some app
  | some i =>
    (app.filtered_tasks[i]?).map fun t => { app with input_mode := .Deleting t.id }

/-- The `InputMode::Normal` arm of `run_app`'s event match. -/
def handleNormalKey (fmtDate fmtTime : Int → String) (now : Int) (app : App) (k : Key)
    (dbOutcome : Except String Unit) : LoopStep :=
  match k with
  | .quitK => .quit app
  | .navDown => .cont (next app)
  | .navUp => .cont (previous app)
  | .toggleK =>
    match toggle_status app dbOutcome with
    | .ok a => .cont a
    | .err e a => .fatal e a
    | .panicked => .panicked
  | .deleteK =>
    match startDeleteKey app with
    | some a => .cont a
    | Option.none => .panicked
  | .hideK => .cont (toggle_done_visibility app)
  | .addK => .cont (start_add_popup app)
  | .editK =>
    match start_edit_popup fmtDate fmtTime app with
    | some a => .cont a
    | Option.none => .panicked
  | .suggestK => .cont (jump_to_suggestion now app)
  | .sortK => .cont (cycle_sort_order app)
  | .tagFilterK =>
    .cont { app with input_mode := .FilteringTag, input_buffer := app.tag_filter.getD "" }
  | .priFilterK => .cont { app with input_mode := .FilteringPriority }
  | _ => .cont app

/-- The `Enter` arm of the `FilteringTag` mode: commit the buffer as the
tag filter (empty buffer clears it), recompute, back to Normal. -/
def commitTagFilter (app : App) : App :=
  { update_filtered_tasks
      { app with
        tag_filter := if app.input_buffer = "" then Option.none else some app.input_buffer }
    with input_mode := .Normal, input_buffer := "" }

/-- The level keys of the `FilteringPriority` mode: set the filter,
recompute, back to Normal. -/
def setPriorityFilter (app : App) (p : Option Priority) : App :=
  { update_filtered_tasks { app with priority_filter := p } with input_mode := .Normal }

/-- The `InputMode::Adding(_) | InputMode::Editing(_, _)` arm of
`run_app`'s event match, threading the storage state. -/
def handleEntryKey (now : Int) (nowTod : Nat) (tz : Int → Nat → LocalResult)
    (db : DB) (app : App) (k : Key) : DB × App :=
  match k with
  | .enter => next_popup_step now nowTod tz db app
  | .esc => (db, { app with input_mode := .Normal, input_buffer := "" })
  | .char c => (db, { app with input_buffer := app.input_buffer.push c })
  | .backspace => (db, { app with input_buffer := app.input_buffer.dropRight 1 })
  | _ => (db, app)

/-! ## Specification-side definitions (for comparison with the code) -/

/-- The suggestion score exactly as the specification words it: +50 if the
due instant is overdue (strictly before now), +40 if due within 24 hours,
+20 if due within 72 hours, +0 otherwise, plus the priority band. -/
def spec_score (now : Int) (t : Task) : Int :=
  (match t.priority with
   | .High => 30
   | .Medium => 20
   | .Low => 10
   | .None => 0)
  + match t.limit with
    | Option.none => 0
    | some limit =>
      if limit < now then 50
      else if limit - now ≤ 24 * 3600 then 40
      else if limit - now ≤ 72 * 3600 then 20
      else 0

/-- The winner the specification describes: the first incomplete task in
cache order whose `spec_score` is maximal. -/
def spec_best (now : Int) (tasks : List Task) : Option Int :=
  let inc := tasks.filter fun t => !t.is_done
  (inc.find? fun t => decide (∀ u ∈ inc, spec_score now u ≤ spec_score now t)).map fun t => t.id

/-- The winner the code actually computes, stated declaratively: the first
incomplete task in cache order whose (truncated-hour) `suggestion_score`
is maximal. -/
def amended_best (now : Int) (tasks : List Task) : Option Int :=
  let inc := tasks.filter fun t => !t.is_done
  let m := (inc.map (suggestion_score now)).foldl max (-1)
  (inc.find? fun t => suggestion_score now t == m).map fun t => t.id

/-- The cursor-validity invariant: a selected index, when present, is in
bounds of the filtered projection. -/
def cursorOk (app : App) : Prop :=
  match app.selected with
  | Option.none => True
  | some i => i < app.filtered_tasks.length

instance (app : App) : Decidable (cursorOk app) := by
  unfold cursorOk
  cases app.selected <;> infer_instance

/-- The full cursor invariant of the spec: a selected index is in bounds,
and a non-empty projection always has a selection. -/
def cursorInv (app : App) : Prop :=
  cursorOk app ∧ (app.filtered_tasks ≠ [] → app.selected ≠ Option.none)

/-! ## Concrete inputs used by witnesses and counterexamples -/

/-- A minimal concrete task. -/
def exTask (id : Int) (done : Bool) (p : Priority) (lim : Option Int) : Task :=
  { id := id, title := "task", is_done := done, limit := lim,
    description := Option.none, priority := p, tags := [], dependencies := [] }

/-- A concrete base application state. -/
def exApp (ts fs : List Task) (sel : Option Nat) : App :=
  { tasks := ts, filtered_tasks := fs, selected := sel, input_mode := .Normal,
    input_buffer := "", popup_data := PopupData.default, show_done := false,
    tag_filter := Option.none, priority_filter := Option.none, sort_order := .Limit }

/-- A concrete timezone map without gaps or overlaps. -/
def exTz : Int → Nat → LocalResult := fun d t => .single (d * 86400 + (t : Int))

/-- Two-element projection used by the wrap-around witness. -/
def c7exApp : App :=
  exApp [] [exTask 1 false .Low Option.none, exTask 2 false .High Option.none] (some 1)

/-- A state in the middle of an Adding flow: the operator typed a title,
confirmed it, and is on the Priority step. -/
def c8exApp : App :=
  { exApp [] [] Option.none with
    input_mode := .Adding .Priority
    input_buffer := ""
    popup_data := { PopupData.default with title := "buy milk", priority := " " } }

def c8exDb : DB :=
  { rows := [], next_id := 1 }

/-- Cache order for the C1 counterexample: task 1 (incomplete, Medium,
due in 48 h) before task 2 (incomplete, no priority, overdue by 30 min). -/
def c1exTasks : List Task :=
  [exTask 1 false .Medium (some 172800), exTask 2 false .None (some (-1800))]

/-- A state about to be re-filtered: the selected task (id 9) is done, so
hiding completed tasks will drop it from the projection. -/
def c2exApp : App :=
  exApp [exTask 9 true .Low Option.none, exTask 4 false .High Option.none]
    [exTask 4 false .High Option.none, exTask 9 true .Low Option.none] (some 1)

/-- A one-task state with a valid cursor. -/
def c10exApp : App :=
  exApp [exTask 3 false .Low Option.none] [exTask 3 false .Low Option.none] (some 0)

/-- A one-task state used for the storage-failure analysis. -/
def c3exApp : App :=
  exApp [exTask 7 false .Low Option.none] [exTask 7 false .Low Option.none] (some 0)

/-- A trivial date/time renderer for concrete instantiations. -/
def exFmt : Int → String := fun _ => ""

/-- The C6 example: A incomplete/Low (id 1), B incomplete/High (id 2),
C complete/High (id 3), all visible, sorted by priority. -/
def c6exApp : App :=
  { exApp
      [exTask 1 false .Low Option.none, exTask 2 false .High Option.none,
        exTask 3 true .High Option.none]
      [] Option.none with
    show_done := true
    sort_order := .Priority }

/-! # Theorems -/

/-- C5: combining date and time text into a due instant: an empty (after
trimming) date text yields no value; a successfully parsed date with empty
time text defaults the time of day to 23:59; a non-empty time text that
matches neither a time shortcut nor `HH:MM` also defaults to 23:59; and an
ambiguous or nonexistent local civil time (DST gap) yields no value rather
than guessing. -/
theorem c5_combine_date_time (now : Int) (nowTod : Nat) (tz : Int → Nat → LocalResult)
    (date_str time_str : String) :
    (strTrim date_str = "" → parse_full_date_time now nowTod tz date_str time_str = Option.none)
    ∧ (∀ d : Int, strTrim date_str ≠ "" →
        (parse_shortcut_date now date_str).orElse (fun _ => parseYmd date_str) = some d →
        strTrim time_str = "" →
        parse_full_date_time now nowTod tz date_str time_str
          = (tz d (23 * 3600 + 59 * 60)).single?)
    ∧ (∀ d : Int, strTrim date_str ≠ "" →
        (parse_shortcut_date now date_str).orElse (fun _ => parseYmd date_str) = some d →
        parse_shortcut_time nowTod time_str = Option.none →
        parseHM time_str = Option.none →
        parse_full_date_time now nowTod tz date_str time_str
          = (tz d (23 * 3600 + 59 * 60)).single?)
    ∧ (∀ a b : Int, LocalResult.single? (.ambiguous a b) = Option.none
        ∧ LocalResult.single? .invalid = Option.none) := by
  refine ⟨fun h => by simp [parse_full_date_time, h], ?_, ?_, fun a b => ⟨rfl, rfl⟩⟩
  · intro d hne hd ht
    simp [parse_full_date_time, hne, hd, ht]
  · intro d hne hd h1 h2
    by_cases hts : strTrim time_str = "" <;>
      simp [parse_full_date_time, hne, hd, h1, h2, hts]

/-- Witness for C5 at a concrete input: date shortcut `"t"` with the
unparseable time text `"zz"` resolves to 23:59 on today's date. -/
theorem c5_witness :
    strTrim "t" ≠ "" ∧ parse_full_date_time 5 0 exTz "t" "zz" = some 518340 := by
  have h := (c5_combine_date_time 5 0 exTz "t" "zz").2.2.1 5 (by decide) (by decide)
    (by decide) (by decide)
  exact ⟨by decide, by rw [h]; decide⟩

lemma next_step_selected (app : App) (i : Nat) (h : app.selected = some i)
    (hlt : i < app.filtered_tasks.length) :
    (next app).selected = some ((i + 1) % app.filtered_tasks.length)
    ∧ (next app).filtered_tasks = app.filtered_tasks := by
  have hne : app.filtered_tasks.isEmpty = false := by
    cases hf : app.filtered_tasks with
    | nil => rw [hf] at hlt; simp at hlt
    | cons a l => simp [hf]
  unfold next
  rw [hne, h]
  refine ⟨?_, rfl⟩
  simp only [Bool.false_eq_true, if_false]
  congr 1
  by_cases hge : i ≥ app.filtered_tasks.length - 1
  · have hi : i = app.filtered_tasks.length - 1 := by omega
    rw [if_pos hge, hi]
    have : app.filtered_tasks.length - 1 + 1 = app.filtered_tasks.length := by omega
    rw [this, Nat.mod_self]
  · rw [if_neg hge, Nat.mod_eq_of_lt (by omega)]

lemma iterate_next_selected (k : Nat) : ∀ (app : App) (i : Nat), app.selected = some i →
    i < app.filtered_tasks.length →
    (next^[k] app).selected = some ((i + k) % app.filtered_tasks.length)
    ∧ (next^[k] app).filtered_tasks = app.filtered_tasks := by
  induction k with
  | zero =>
    intro app i h hlt
    simpa [Nat.mod_eq_of_lt hlt] using h
  | succ k ih =>
    intro app i h hlt
    have hstep := next_step_selected app i h hlt
    have hlt' : (i + 1) % app.filtered_tasks.length < (next app).filtered_tasks.length := by
      rw [hstep.2]
      exact Nat.mod_lt _ (by omega)
    have hrec := ih (next app) _ hstep.1 hlt'
    rw [Function.iterate_succ_apply]
    refine ⟨?_, hrec.2.trans hstep.2⟩
    rw [hrec.1, hstep.2, Nat.mod_add_mod]
    congr 2
    omega

/-- C7: on a non-empty projection of length `n`, starting from any valid
cursor index, applying `next` (`move_cursor(+1)`) `n` times returns the
cursor to its starting index; moving past the last element wraps to the
first and vice versa; and on an empty projection both `next` and
`previous` are no-ops. -/
theorem c7_cursor_wraparound :
    (∀ app : App, app.filtered_tasks = [] → next app = app ∧ previous app = app)
    ∧ (∀ (app : App) (i : Nat), app.selected = some i → i < app.filtered_tasks.length →
        (next^[app.filtered_tasks.length] app).selected = some i)
    ∧ (∀ app : App, app.selected = some (app.filtered_tasks.length - 1) →
        app.filtered_tasks ≠ [] → (next app).selected = some 0)
    ∧ (∀ app : App, app.selected = some 0 → app.filtered_tasks ≠ [] →
        (previous app).selected = some (app.filtered_tasks.length - 1)) := by
  refine ⟨fun app h => ?_, fun app i h hlt => ?_, fun app h hne => ?_, fun app h hne => ?_⟩
  · refine ⟨?_, ?_⟩
    · unfold next; simp [h]
    · unfold previous; simp [h]
  · rw [(iterate_next_selected app.filtered_tasks.length app i h hlt).1,
      Nat.add_mod_right, Nat.mod_eq_of_lt hlt]
  · have hne' : app.filtered_tasks.isEmpty = false := by simpa using hne
    unfold next
    rw [hne', h]
    simp
  · have hne' : app.filtered_tasks.isEmpty = false := by simpa using hne
    unfold previous
    rw [hne', h]
    simp

/-- Witness for C7: a two-element projection with the cursor on index 1
returns to index 1 after two steps, and `next` on an empty projection is
the identity. -/
theorem c7_witness :
    (next^[2] c7exApp).selected = some 1
    ∧ next (exApp [] [] Option.none) = exApp [] [] Option.none := by
  refine ⟨?_, (c7_cursor_wraparound.1 (exApp [] [] Option.none) rfl).1⟩
  exact c7_cursor_wraparound.2.1 c7exApp 1 (by decide) (by decide)

/-- C8: cancelling an Adding entry flow at any step — including after text
has been committed into the title field — leaves the stored task set
unchanged (no task created or partially persisted), returns the mode to
Normal with a cleared input buffer, keeps the in-memory cache untouched,
and the buffered values have no further effect: the next Adding flow
starts from a fresh `PopupData`. -/
theorem c8_cancel_adding (now : Int) (nowTod : Nat) (tz : Int → Nat → LocalResult)
    (db : DB) (app : App) (step : PopupStep) (h : app.input_mode = .Adding step) :
    handleEntryKey now nowTod tz db app .esc
      = (db, { app with input_mode := .Normal, input_buffer := "" })
    ∧ (handleEntryKey now nowTod tz db app .esc).1 = db
    ∧ (handleEntryKey now nowTod tz db app .esc).2.tasks = app.tasks
    ∧ (handleEntryKey now nowTod tz db app .esc).2.input_mode = .Normal
    ∧ (handleEntryKey now nowTod tz db app .esc).2.input_buffer = ""
    ∧ (start_add_popup (handleEntryKey now nowTod tz db app .esc).2).popup_data
      = { title := "", priority := " ", tags := "", dependencies := "",
          date := "", time := "", description := "" } :=
  ⟨rfl, rfl, rfl, rfl, rfl, rfl⟩

/-- Witness for C8: cancelling after committing the title "buy milk"
leaves the empty store empty and returns to Normal mode. -/
theorem c8_witness :
    handleEntryKey 0 0 exTz c8exDb c8exApp .esc
      = (c8exDb, { c8exApp with input_mode := .Normal, input_buffer := "" })
    ∧ (handleEntryKey 0 0 exTz c8exDb c8exApp .esc).1.rows = [] :=
  ⟨(c8_cancel_adding 0 0 exTz c8exDb c8exApp .Priority rfl).1, rfl⟩

lemma findIdx?_bounds {α : Type} (p : α → Bool) :
    ∀ (l : List α) (i j : Nat), List.findIdx? p l i = some j → i ≤ j ∧ j < i + l.length := by
  intro l
  induction l with
  | nil => intro i j h; simp at h
  | cons x xs ih =>
    intro i j h
    rw [List.findIdx?_cons] at h
    by_cases hp : p x = true
    · rw [if_pos hp] at h
      cases h
      simp
    · rw [if_neg hp] at h
      have := ih (i + 1) j h
      constructor
      · omega
      · simp only [List.length_cons]
        omega

lemma findIdx?_some_lt {α : Type} (p : α → Bool) (l : List α) (j : Nat)
    (h : List.findIdx? p l = some j) : j < l.length := by
  have := findIdx?_bounds p l 0 j h
  omega

lemma relocate_no_selection (oldF newF : List Task) (hne : newF ≠ []) :
    relocate Option.none oldF newF = some 0 := by
  simp [relocate, hne]

lemma relocate_no_selection_empty (oldF : List Task) :
    relocate Option.none oldF [] = Option.none := by
  simp [relocate]

lemma relocate_found (oldF newF : List Task) (i j : Nat) (t : Task)
    (hget : oldF[i]? = some t)
    (hfind : newF.findIdx? (fun x => x.id == t.id) = some j) :
    relocate (some i) oldF newF = some j := by
  simp [relocate, hget, hfind]

lemma relocate_clamp (oldF newF : List Task) (i : Nat) (t : Task)
    (hget : oldF[i]? = some t)
    (hfind : newF.findIdx? (fun x => x.id == t.id) = Option.none)
    (hne : newF ≠ []) :
    relocate (some i) oldF newF = some (min i (newF.length - 1)) := by
  simp [relocate, hget, hfind, hne]

lemma relocate_lost (oldF : List Task) (i : Nat) (t : Task)
    (hget : oldF[i]? = some t) :
    relocate (some i) oldF [] = Option.none := by
  simp [relocate, hget]

lemma relocate_valid (oldSel : Option Nat) (oldF newF : List Task)
    (h : ∀ i, oldSel = some i → i < oldF.length) :
    (∀ j, relocate oldSel oldF newF = some j → j < newF.length)
    ∧ (newF ≠ [] → ∃ j, relocate oldSel oldF newF = some j ∧ j < newF.length) := by
  cases hsel : oldSel with
  | none =>
    cases newF with
    | nil =>
      refine ⟨fun j hj => ?_, fun hne' => absurd rfl hne'⟩
      rw [relocate_no_selection_empty] at hj
      cases hj
    | cons a l =>
      have hr := relocate_no_selection oldF (a :: l) (by simp)
      refine ⟨fun j hj => ?_, fun _ => ⟨0, hr, by simp⟩⟩
      rw [hr] at hj
      cases hj
      simp
  | some i =>
    have hi : i < oldF.length := h i hsel
    have hget : oldF[i]? = some (oldF[i]) := List.getElem?_eq_getElem hi
    cases hfind : newF.findIdx? (fun x => x.id == (oldF[i]).id) with
    | some j =>
      have hr := relocate_found oldF newF i j _ hget hfind
      have hjlt := findIdx?_some_lt _ _ _ hfind
      exact ⟨fun j' hj' => by rw [hr] at hj'; cases hj'; exact hjlt,
        fun _ => ⟨j, hr, hjlt⟩⟩
    | none =>
      cases hempty : newF with
      | nil =>
        have hr := relocate_lost oldF i _ hget
        rw [hempty] at hfind
        refine ⟨fun j' hj' => ?_, fun hne' => absurd rfl hne'⟩
        rw [hr] at hj'
        cases hj'
      | cons a l =>
        rw [hempty] at hfind
        have hr := relocate_clamp oldF (a :: l) i _ hget hfind (by simp)
        have hlt : min i ((a :: l).length - 1) < (a :: l).length := by
          simp only [List.length_cons]
          omega
        exact ⟨fun j' hj' => by rw [hr] at hj'; cases hj'; exact hlt,
          fun _ => ⟨_, hr, hlt⟩⟩

lemma cursorOk_elim (app : App) (h : cursorOk app) :
    ∀ i, app.selected = some i → i < app.filtered_tasks.length := by
  intro i hi
  unfold cursorOk at h
  rw [hi] at h
  exact h

lemma update_selected_eq (app : App) :
    (update_filtered_tasks app).selected
      = relocate app.selected app.filtered_tasks (projection app) := rfl

lemma update_filtered_eq (app : App) :
    (update_filtered_tasks app).filtered_tasks = projection app := rfl

lemma update_preserves_inv (app : App) (h : cursorOk app) :
    cursorInv (update_filtered_tasks app) := by
  have hv := relocate_valid app.selected app.filtered_tasks (projection app)
    (cursorOk_elim app h)
  constructor
  · unfold cursorOk
    rw [update_selected_eq, update_filtered_eq]
    cases hr : relocate app.selected app.filtered_tasks (projection app) with
    | none => trivial
    | some j => exact hv.1 j hr
  · rw [update_selected_eq, update_filtered_eq]
    intro hne
    obtain ⟨j, hj, _⟩ := hv.2 hne
    rw [hj]
    simp

lemma toggle_status_ok_inv (app : App) (dbo : Except String Unit) (a : App)
    (h : cursorInv app) (hok : toggle_status app dbo = .ok a) : cursorInv a := by
  unfold toggle_status at hok
  cases hsel : app.selected with
  | none =>
    rw [hsel] at hok
    cases hok
    exact h
  | some i =>
    have hi : i < app.filtered_tasks.length := cursorOk_elim app h.1 i hsel
    rw [hsel] at hok
    dsimp only at hok
    rw [List.getElem?_eq_getElem hi] at hok
    dsimp only at hok
    by_cases hany : app.tasks.any (fun t => t.id == (app.filtered_tasks[i]).id) = true
    · rw [if_pos hany] at hok
      cases dbo with
      | error e => cases hok
      | ok u =>
        dsimp only at hok
        cases hok
        exact update_preserves_inv _ hi
    · rw [if_neg hany] at hok
      cases hok
      exact update_preserves_inv _ h.1

/-- C2: after every operation that recomputes the filtered projection —
refresh, tag/priority filter changes, sort cycling, toggling
show-completed, and successful completion toggles — a non-empty
projection always carries a valid cursor; across re-filtering the
selection is preserved by re-locating the previously selected task's id
in the new projection, falling back to the old index clamped to the new
length, falling back to index 0. -/
theorem c2_cursor_invariant :
    (∀ app : App, cursorOk app → cursorInv (update_filtered_tasks app))
    ∧ (∀ (app : App) (i j : Nat) (t : Task), app.selected = some i →
        app.filtered_tasks[i]? = some t →
        (projection app).findIdx? (fun x => x.id == t.id) = some j →
        (update_filtered_tasks app).selected = some j)
    ∧ (∀ (app : App) (i : Nat) (t : Task), app.selected = some i →
        app.filtered_tasks[i]? = some t →
        (projection app).findIdx? (fun x => x.id == t.id) = Option.none →
        projection app ≠ [] →
        (update_filtered_tasks app).selected = some (min i ((projection app).length - 1)))
    ∧ (∀ app : App, app.selected = Option.none → projection app ≠ [] →
        (update_filtered_tasks app).selected = some 0)
    ∧ (∀ (app : App) (loaded : List Task), cursorOk app →
        cursorInv (refresh_tasks app loaded)
        ∧ cursorInv (toggle_done_visibility app)
        ∧ cursorInv (cycle_sort_order app)
        ∧ cursorInv (commitTagFilter app)
        ∧ ∀ p, cursorInv (setPriorityFilter app p))
    ∧ (∀ (app : App) (dbo : Except String Unit) (a : App), cursorInv app →
        toggle_status app dbo = .ok a → cursorInv a) := by
  refine ⟨update_preserves_inv, ?_, ?_, ?_, ?_, toggle_status_ok_inv⟩
  · intro app i j t hsel hget hfind
    rw [update_selected_eq, hsel]
    exact relocate_found _ _ _ _ _ hget hfind
  · intro app i t hsel hget hfind hne
    rw [update_selected_eq, hsel]
    exact relocate_clamp _ _ _ _ hget hfind hne
  · intro app hsel hne
    rw [update_selected_eq, hsel]
    exact relocate_no_selection _ _ hne
  · intro app loaded h
    exact ⟨update_preserves_inv _ h, update_preserves_inv _ h, update_preserves_inv _ h,
      update_preserves_inv _ h, fun p => update_preserves_inv _ h⟩

/-- Witness for C2: hiding completed tasks while a completed task is
selected keeps the cursor valid (it falls back to the clamped index). -/
theorem c2_witness :
    cursorOk c2exApp ∧ cursorInv (update_filtered_tasks c2exApp) :=
  ⟨by decide, c2_cursor_invariant.1 c2exApp (by decide)⟩

lemma toggle_status_not_panic (app : App) (dbo : Except String Unit) (h : cursorOk app) :
    toggle_status app dbo ≠ .panicked := by
  unfold toggle_status
  cases hsel : app.selected with
  | none => simp
  | some i =>
    have hi : i < app.filtered_tasks.length := cursorOk_elim app h i hsel
    dsimp only
    rw [List.getElem?_eq_getElem hi]
    dsimp only
    by_cases hany : app.tasks.any (fun t => t.id == (app.filtered_tasks[i]).id) = true
    · rw [if_pos hany]
      cases dbo <;> simp
    · rw [if_neg hany]
      simp

/-- C10: under the cursor-validity invariant, the Normal-mode handlers
that index the filtered projection at the selected index — completion
toggling, entering delete confirmation, and opening the edit flow — never
reach the out-of-bounds panic branch, and no Normal-mode key can panic. -/
theorem c10_indexing_safe (fmtDate fmtTime : Int → String) (now : Int) (app : App)
    (dbo : Except String Unit) (h : cursorOk app) :
    toggle_status app dbo ≠ .panicked
    ∧ startDeleteKey app ≠ Option.none
    ∧ start_edit_popup fmtDate fmtTime app ≠ Option.none
    ∧ ∀ k : Key, handleNormalKey fmtDate fmtTime now app k dbo ≠ .panicked := by
  have hdel : startDeleteKey app ≠ Option.none := by
    unfold startDeleteKey
    cases hsel : app.selected with
    | none => simp
    | some i =>
      have hi : i < app.filtered_tasks.length := cursorOk_elim app h i hsel
      dsimp only
      rw [List.getElem?_eq_getElem hi]
      simp
  have hedit : start_edit_popup fmtDate fmtTime app ≠ Option.none := by
    unfold start_edit_popup
    cases hsel : app.selected with
    | none => simp
    | some i =>
      have hi : i < app.filtered_tasks.length := cursorOk_elim app h i hsel
      dsimp only
      rw [List.getElem?_eq_getElem hi]
      simp
  refine ⟨toggle_status_not_panic app dbo h, hdel, hedit, ?_⟩
  intro k
  cases k <;> unfold handleNormalKey <;> try simp
  · cases htog : toggle_status app dbo with
    | ok a => simp
    | err e a => simp
    | panicked => exact absurd htog (toggle_status_not_panic app dbo h)
  · cases hsd : startDeleteKey app with
    | none => exact absurd hsd hdel
    | some a => simp
  · cases he : start_edit_popup fmtDate fmtTime app with
    | none => exact absurd he hedit
    | some a => simp

/-- Witness for C10: the handlers evaluate without panic on a concrete
one-task state with the cursor on index 0. -/
theorem c10_witness :
    toggle_status c10exApp (Except.ok ()) ≠ OpResult.panicked
    ∧ startDeleteKey c10exApp ≠ Option.none :=
  have h := c10_indexing_safe (fun _ => "") (fun _ => "") 0 c10exApp (Except.ok ()) (by decide)
  ⟨h.1, h.2.1⟩

/-- Counterexample for C3: with one incomplete task selected and a failing
storage update, the completion toggle does not leave the operator in
Normal mode — the error propagates out of the interaction loop
(terminating the session) — and the in-memory cache has already been
mutated (the completion flag is flipped although nothing was persisted). -/
theorem c3_counterexample :
    handleNormalKey exFmt exFmt 0 c3exApp .toggleK (Except.error "io")
      = .fatal "io" { c3exApp with tasks := [exTask 7 true .Low Option.none] }
    ∧ [exTask 7 true .Low Option.none] ≠ c3exApp.tasks := by
  decide

/-- C3 (amended): when the storage update during a completion toggle
fails, the error is propagated verbatim out of the interaction loop — it
is surfaced by ending the session with that error, not displayed inside a
still-running TUI — so the operator is not returned to Normal mode, and
the in-memory cache keeps the completion flag that was flipped before the
failed persist (it may diverge from storage). -/
theorem c3_storage_failure (fmtDate fmtTime : Int → String) (now : Int) (app : App)
    (i : Nat) (e : String) (hsel : app.selected = some i)
    (hi : i < app.filtered_tasks.length)
    (hmem : app.tasks.any (fun t => t.id == (app.filtered_tasks[i]).id) = true) :
    toggle_status app (Except.error e)
      = .err e { app with tasks := flipFirst (app.filtered_tasks[i]).id app.tasks }
    ∧ handleNormalKey fmtDate fmtTime now app .toggleK (Except.error e)
      = .fatal e { app with tasks := flipFirst (app.filtered_tasks[i]).id app.tasks } := by
  have ht : toggle_status app (Except.error e)
      = .err e { app with tasks := flipFirst (app.filtered_tasks[i]).id app.tasks } := by
    unfold toggle_status
    rw [hsel]
    dsimp only
    rw [List.getElem?_eq_getElem hi]
    dsimp only
    rw [if_pos hmem]
  refine ⟨ht, ?_⟩
  unfold handleNormalKey
  rw [ht]

/-- Witness for C3's amended statement at a concrete input. -/
theorem c3_witness :
    toggle_status c3exApp (Except.error "disk full")
      = .err "disk full" { c3exApp with tasks := [exTask 7 true .Low Option.none] } := by
  have h := (c3_storage_failure exFmt exFmt 0 c3exApp 0 "disk full" (by decide) (by decide)
    (by decide)).1
  rw [h]
  decide

lemma cmpInt_gt_iff (x y : Int) : (cmpInt x y == Ordering.gt) = true ↔ y < x := by
  unfold cmpInt
  split_ifs with h1 h2
  · exact iff_of_false (by decide) (by omega)
  · exact iff_of_false (by decide) (by omega)
  · exact iff_of_true (by decide) (by omega)

lemma cmpInt_gt_eq_false_iff (x y : Int) : (cmpInt x y == Ordering.gt) = false ↔ x ≤ y := by
  cases h : (cmpInt x y == Ordering.gt) with
  | true =>
    simp only [Bool.true_eq_false, false_iff]
    have := (cmpInt_gt_iff x y).mp h
    omega
  | false =>
    simp only [true_iff]
    by_contra hc
    have ht : (cmpInt x y == Ordering.gt) = true := (cmpInt_gt_iff x y).mpr (by omega)
    rw [h] at ht
    cases ht

lemma lt_beq_gt : (Ordering.lt == Ordering.gt) = false := rfl

lemma gt_beq_gt : (Ordering.gt == Ordering.gt) = true := rfl

lemma taskLe_priority_iff (a b : Task) :
    taskLe .Priority a b = true ↔
      ((a.is_done = false ∧ b.is_done = true)
        ∨ (a.is_done = b.is_done ∧ b.priority.to_int ≤ a.priority.to_int)) := by
  unfold taskLe taskCmp
  cases ha : a.is_done <;> cases hb : b.is_done <;>
    simp [ha, hb, cmpBool, Ordering.then, cmpInt_gt_eq_false_iff, cmpInt_gt_iff,
      lt_beq_gt, gt_beq_gt]

lemma taskLe_priority_total (a b : Task) :
    taskLe .Priority a b = true ∨ taskLe .Priority b a = true := by
  rw [taskLe_priority_iff, taskLe_priority_iff]
  cases ha : a.is_done <;> cases hb : b.is_done <;> simp [ha, hb] <;> omega

lemma taskLe_priority_trans (a b c : Task) (hab : taskLe .Priority a b = true)
    (hbc : taskLe .Priority b c = true) : taskLe .Priority a c = true := by
  rw [taskLe_priority_iff] at hab hbc ⊢
  rcases hab with ⟨h1, h2⟩ | ⟨h1, h2⟩ <;> rcases hbc with ⟨h3, h4⟩ | ⟨h3, h4⟩ <;>
    simp_all <;> omega

/-- C6: under the by-priority sort mode, every incomplete task is ordered
before every complete task and, within each completion group, tasks appear
in descending priority; the sorted list is a permutation of its input; and
for the concrete tasks A incomplete/Low (id 1), B incomplete/High (id 2),
C complete/High (id 3) the resulting projection order is [B, A, C]. -/
theorem c6_priority_sort :
    (∀ l : List Task,
      List.Pairwise
        (fun a b => ¬(a.is_done = true ∧ b.is_done = false)
          ∧ (a.is_done = b.is_done → b.priority.to_int ≤ a.priority.to_int))
        (sortTasks .Priority l)
      ∧ (sortTasks .Priority l).Perm l)
    ∧ (update_filtered_tasks c6exApp).filtered_tasks.map (fun t => t.id) = [2, 1, 3] := by
  constructor
  · intro l
    letI instTot : IsTotal Task (fun a b => taskLe .Priority a b = true) :=
      ⟨taskLe_priority_total⟩
    letI instTrans : IsTrans Task (fun a b => taskLe .Priority a b = true) :=
      ⟨taskLe_priority_trans⟩
    constructor
    · have hs := List.sorted_insertionSort (fun a b => taskLe .Priority a b = true) l
      refine List.Pairwise.imp ?_ hs
      intro a b hab
      rw [taskLe_priority_iff] at hab
      constructor
      · rintro ⟨h1, h2⟩
        rcases hab with ⟨h3, h4⟩ | ⟨h3, h4⟩
        · rw [h1] at h3; cases h3
        · rw [h1, h2] at h3; cases h3
      · intro he
        rcases hab with ⟨h3, h4⟩ | ⟨h3, h4⟩
        · rw [h3, h4] at he; cases he
        · exact h4
    · exact List.perm_insertionSort _ l
  · decide

/-- Witness for C6 at a concrete list. -/
theorem c6_witness : (sortTasks .Priority c1exTasks).Perm c1exTasks :=
  (c6_priority_sort.1 c1exTasks).2

lemma char_toLower_idem (c : Char) : Char.toLower (Char.toLower c) = Char.toLower c := by
  unfold Char.toLower
  by_cases h : c.toNat ≥ 65 ∧ c.toNat ≤ 90
  · rw [if_pos h]
    have ht : (Char.ofNat (c.toNat + 32)).toNat = c.toNat + 32 := by
      unfold Char.ofNat
      rw [dif_pos]
      · rfl
      · unfold Nat.isValidChar
        left
        omega
    rw [if_neg]
    rw [ht]
    omega
  · simp only [if_neg h]

lemma strToLower_idem (s : String) : strToLower (strToLower s) = strToLower s := by
  unfold strToLower
  simp only [List.map_map]
  have hcomp : Char.toLower ∘ Char.toLower = Char.toLower := by
    funext c
    exact char_toLower_idem c
  rw [hcomp]

/-- The parser only looks at the lowercased input. -/
lemma parse_shortcut_date_lowercase (now : Int) (s : String) :
    parse_shortcut_date now s = parse_shortcut_date now (strToLower s) := by
  unfold parse_shortcut_date
  rw [strToLower_idem]

lemma nextWeekdaySearch_finds (target : Int) :
    ∀ (fuel : Nat) (start : Int) (k : Nat), k < fuel →
      weekday (start + k) = target →
      (∀ j : Nat, j < k → weekday (start + j) ≠ target) →
      nextWeekdaySearch target fuel start = some (start + k) := by
  intro fuel
  induction fuel with
  | zero => intro start k hk; omega
  | succ fuel ih =>
    intro start k hk hw hmin
    unfold nextWeekdaySearch
    by_cases h0 : weekday start = target
    · have hk0 : k = 0 := by
        by_contra hne
        exact hmin 0 (by omega) (by simpa using h0)
      subst hk0
      simp [h0]
    · rw [if_neg h0]
      have hk0 : k ≠ 0 := by
        intro hz
        subst hz
        simp at hw
        exact h0 hw
      have harg : start + 1 + ((k - 1 : Nat) : Int) = start + (k : Int) := by omega
      have hres := ih (start + 1) (k - 1) (by omega) (by rw [harg]; exact hw) ?_
      · rw [hres, harg]
      · intro j hj hwj
        have hjeq : start + 1 + (j : Int) = start + ((j + 1 : Nat) : Int) := by
          push_cast
          omega
        exact hmin (j + 1) (by omega) (by rw [← hjeq]; exact hwj)

lemma weekday_exists_in_week (target : Int) (h0 : 0 ≤ target) (h7 : target < 7) (start : Int) :
    ∃ k : Nat, k < 7 ∧ weekday (start + k) = target
      ∧ ∀ j : Nat, j < k → weekday (start + j) ≠ target := by
  refine ⟨((target - (start + 3)) % 7).toNat, ?_, ?_, ?_⟩
  · omega
  · unfold weekday
    omega
  · intro j hj
    unfold weekday
    omega

/-- C4: for every weekday name the parser recognizes (case-insensitively:
the lowercased input is one of `mon..sun`), the result is the unique next
date strictly after today whose weekday is the named one — in particular
it is never today itself, even when today already has that weekday. -/
theorem c4_weekday_shortcut (now : Int) (name : String) (target : Int)
    (h : weekdayOfName (strToLower name) = some target) :
    ∃ d, parse_shortcut_date now name = some d ∧ now < d ∧ d ≤ now + 7 ∧ weekday d = target
      ∧ ∀ e, now < e → e < d → weekday e ≠ target := by
  have hcases : (strToLower name = "mon" ∧ target = 0)
      ∨ (strToLower name = "tue" ∧ target = 1)
      ∨ (strToLower name = "wed" ∧ target = 2)
      ∨ (strToLower name = "thu" ∧ target = 3)
      ∨ (strToLower name = "fri" ∧ target = 4)
      ∨ (strToLower name = "sat" ∧ target = 5)
      ∨ (strToLower name = "sun" ∧ target = 6) := by
    unfold weekdayOfName at h
    split_ifs at h with h1 h2 h3 h4 h5 h6 h7
    · cases h; exact Or.inl ⟨h1, rfl⟩
    · cases h; exact Or.inr (Or.inl ⟨h2, rfl⟩)
    · cases h; exact Or.inr (Or.inr (Or.inl ⟨h3, rfl⟩))
    · cases h; exact Or.inr (Or.inr (Or.inr (Or.inl ⟨h4, rfl⟩)))
    · cases h; exact Or.inr (Or.inr (Or.inr (Or.inr (Or.inl ⟨h5, rfl⟩))))
    · cases h; exact Or.inr (Or.inr (Or.inr (Or.inr (Or.inr (Or.inl ⟨h6, rfl⟩)))))
    · cases h; exact Or.inr (Or.inr (Or.inr (Or.inr (Or.inr (Or.inr ⟨h7, rfl⟩)))))
  have htb : 0 ≤ target ∧ target < 7 := by
    rcases hcases with ⟨_, ht⟩ | ⟨_, ht⟩ | ⟨_, ht⟩ | ⟨_, ht⟩ | ⟨_, ht⟩ | ⟨_, ht⟩ | ⟨_, ht⟩ <;>
      subst ht <;> omega
  obtain ⟨k, hk7, hwk, hmin⟩ := weekday_exists_in_week target htb.1 htb.2 (now + 1)
  have hsearch := nextWeekdaySearch_finds target 7 (now + 1) k hk7 hwk hmin
  refine ⟨now + 1 + k, ?_, by omega, by omega, hwk, ?_⟩
  · rw [parse_shortcut_date_lowercase]
    rcases hcases with ⟨hn, ht⟩ | ⟨hn, ht⟩ | ⟨hn, ht⟩ | ⟨hn, ht⟩ | ⟨hn, ht⟩ | ⟨hn, ht⟩ |
        ⟨hn, ht⟩ <;>
      rw [hn] <;> subst ht <;> exact hsearch
  · intro e he1 he2
    have hex : ∃ j : Nat, (j : Int) = e - (now + 1) ∧ j < k :=
      ⟨(e - (now + 1)).toNat, by omega, by omega⟩
    obtain ⟨j, hj, hjk⟩ := hex
    have heq : now + 1 + (j : Int) = e := by omega
    intro hw
    exact hmin j hjk (by rw [heq]; exact hw)

/-- Witness for C4: from day 0 (a Thursday), `"MON"` parses to day 4, the
next Monday. -/
theorem c4_witness :
    weekdayOfName (strToLower "MON") = some 0
    ∧ ∃ d, parse_shortcut_date 0 "MON" = some d ∧ 0 < d ∧ d ≤ 7 ∧ weekday d = 0
        ∧ ∀ e, 0 < e → e < d → weekday e ≠ 0 :=
  ⟨by decide, by simpa using c4_weekday_shortcut 0 "MON" 0 (by decide)⟩

lemma parseNatCore_append (as bs : List Char) :
    ∀ acc, parseNatCore (as ++ bs) acc
      = match parseNatCore as acc with
        | some v => parseNatCore bs v
        | Option.none => Option.none := by
  induction as with
  | nil => intro acc; simp [parseNatCore]
  | cons c cs ih =>
    intro acc
    simp only [List.cons_append, parseNatCore]
    cases hd : digitVal? c with
    | none => simp
    | some d => simp [ih]

lemma digitVal?_digitChar (d : Nat) (h : d < 10) : digitVal? (digitChar d) = some d := by
  interval_cases d <;> decide

lemma parseNatCore_renderNat (n : Nat) :
    ∀ acc, parseNatCore (renderNat n) acc
      = some (acc * 10 ^ (renderNat n).length + n) := by
  induction n using Nat.strong_induction_on with
  | _ n ih =>
    intro acc
    rw [renderNat]
    by_cases h : n < 10
    · rw [if_pos h]
      simp [parseNatCore, digitVal?_digitChar n h]
    · rw [if_neg h]
      rw [parseNatCore_append]
      rw [ih (n / 10) (Nat.div_lt_self (by omega) (by omega)) acc]
      simp only [parseNatCore, digitVal?_digitChar (n % 10) (by omega)]
      simp only [List.length_append, List.length_cons, List.length_nil, pow_succ]
      congr 1
      rw [Nat.add_mul, Nat.mul_assoc, Nat.add_assoc]
      congr 1
      omega

lemma renderNat_shape (n : Nat) :
    ∃ d cs, d < 10 ∧ renderNat n = digitChar d :: cs := by
  induction n using Nat.strong_induction_on with
  | _ n ih =>
    rw [renderNat]
    by_cases h : n < 10
    · exact ⟨n, [], h, by rw [if_pos h]⟩
    · obtain ⟨d, cs, hd, hr⟩ := ih (n / 10) (Nat.div_lt_self (by omega) (by omega))
      exact ⟨d, cs ++ [digitChar (n % 10)], hd, by rw [if_neg h, hr]; rfl⟩

lemma parseNatChars_renderNat (n : Nat) : parseNatChars (renderNat n) = some n := by
  obtain ⟨d, cs, hd, hr⟩ := renderNat_shape n
  rw [hr]
  show parseNatCore (digitChar d :: cs) 0 = some n
  rw [← hr, parseNatCore_renderNat]
  simp

lemma digitChar_ne_minus (d : Nat) (h : d < 10) : digitChar d ≠ '-' := by
  interval_cases d <;> decide

lemma digitChar_ne_plus (d : Nat) (h : d < 10) : digitChar d ≠ '+' := by
  interval_cases d <;> decide

lemma digitChar_ne_t (d : Nat) (h : d < 10) : digitChar d ≠ 't' := by
  interval_cases d <;> decide

lemma toLower_digitChar (d : Nat) (h : d < 10) :
    Char.toLower (digitChar d) = digitChar d := by
  interval_cases d <;> decide

lemma map_toLower_renderNat (n : Nat) :
    (renderNat n).map Char.toLower = renderNat n := by
  induction n using Nat.strong_induction_on with
  | _ n ih =>
    rw [renderNat]
    by_cases h : n < 10
    · rw [if_pos h]
      simp [toLower_digitChar n h]
    · rw [if_neg h]
      rw [List.map_append, ih (n / 10) (Nat.div_lt_self (by omega) (by omega))]
      simp [toLower_digitChar (n % 10) (by omega)]

lemma map_toLower_renderInt (N : Int) :
    (renderInt N).data.map Char.toLower = (renderInt N).data := by
  unfold renderInt
  by_cases h : N < 0
  · rw [if_pos h]
    show Char.toLower '-' :: (renderNat N.natAbs).map Char.toLower = _
    rw [map_toLower_renderNat]
    rfl
  · rw [if_neg h]
    exact map_toLower_renderNat N.natAbs

lemma parseI64_renderInt (N : Int) (h1 : -(2 ^ 63) ≤ N) (h2 : N < 2 ^ 63) :
    parseI64 (renderInt N).data = some N := by
  unfold renderInt
  by_cases h : N < 0
  · rw [if_pos h]
    show parseI64 ('-' :: renderNat N.natAbs) = some N
    unfold parseI64
    dsimp only
    rw [if_pos rfl]
    show (parseNatChars (renderNat N.natAbs)).bind _ = some N
    rw [parseNatChars_renderNat, Option.some_bind]
    have hb : (N.natAbs : Int) ≤ 2 ^ 63 := by omega
    rw [if_pos hb]
    congr 1
    omega
  · rw [if_neg h]
    obtain ⟨d, cs, hd, hr⟩ := renderNat_shape N.natAbs
    rw [hr]
    unfold parseI64
    dsimp only
    rw [if_neg (digitChar_ne_minus d hd), if_neg (digitChar_ne_plus d hd)]
    show (parseNatChars (digitChar d :: cs)).bind _ = some N
    rw [show (digitChar d :: cs) = renderNat N.natAbs from hr.symm, parseNatChars_renderNat,
      Option.some_bind]
    have hb : (N.natAbs : Int) < 2 ^ 63 := by omega
    rw [if_pos hb]
    congr 1
    omega

lemma renderInt_head (N : Int) :
    ∃ c0 rest, (renderInt N).data = c0 :: rest ∧ c0 ≠ 't' := by
  unfold renderInt
  by_cases h : N < 0
  · rw [if_pos h]
    exact ⟨'-', renderNat N.natAbs, rfl, by decide⟩
  · rw [if_neg h]
    obtain ⟨d, cs, hd, hr⟩ := renderNat_shape N.natAbs
    exact ⟨digitChar d, cs, by rw [hr], digitChar_ne_t d hd⟩

lemma strToLower_render_concat (N : Int) (c : Char) (hc : Char.toLower c = c) :
    strToLower (String.mk ((renderInt N).data ++ [c])) = String.mk ((renderInt N).data ++ [c]) := by
  rw [String.ext_iff]
  show ((renderInt N).data ++ [c]).map Char.toLower = (renderInt N).data ++ [c]
  rw [List.map_append, map_toLower_renderInt]
  show (renderInt N).data ++ [Char.toLower c] = _
  rw [hc]

lemma render_concat_ne (N : Int) (c : Char) (s : String) (c0' : Char) (rest' : List Char)
    (hs : s.data = c0' :: rest') (hne : ∀ c0 rest, (renderInt N).data = c0 :: rest → c0 ≠ c0') :
    String.mk ((renderInt N).data ++ [c]) ≠ s := by
  obtain ⟨c0, rest, hc0, hct⟩ := renderInt_head N
  intro he
  have hd := congrArg String.data he
  rw [hs] at hd
  show False
  rw [show (String.mk ((renderInt N).data ++ [c])).data = (renderInt N).data ++ [c] from rfl,
    hc0] at hd
  simp only [List.cons_append, List.cons.injEq] at hd
  exact hne c0 rest hc0 hd.1

lemma weekdaySearchChecked_ok (target : Int) :
    ∀ (fuel : Nat) (x d : Int), weekdaySearchChecked target fuel x = .ok d →
      nextWeekdaySearch target fuel x = some d := by
  intro fuel
  induction fuel with
  | zero => intro x d h; cases h
  | succ fuel ih =>
    intro x d h
    unfold weekdaySearchChecked at h
    unfold nextWeekdaySearch
    by_cases hw : weekday x = target
    · rw [if_pos hw] at h ⊢
      cases h
      rfl
    · rw [if_neg hw] at h ⊢
      by_cases hr : x + 1 < naiveDateMinDay ∨ naiveDateMaxDay < x + 1
      · rw [if_pos hr] at h
        cases h
      · rw [if_neg hr] at h
        exact ih _ _ h

lemma weekdaySearchChecked_ne_noParse (target : Int) :
    ∀ (fuel : Nat) (x : Int), weekdaySearchChecked target fuel x ≠ .noParse := by
  intro fuel
  induction fuel with
  | zero => intro x h; cases h
  | succ fuel ih =>
    intro x h
    unfold weekdaySearchChecked at h
    by_cases h1 : weekday x = target
    · rw [if_pos h1] at h
      cases h
    · rw [if_neg h1] at h
      by_cases h2 : x + 1 < naiveDateMinDay ∨ naiveDateMaxDay < x + 1
      · rw [if_pos h2] at h
        cases h
      · rw [if_neg h2] at h
        exact ih _ h

/-- `parse_shortcut_date` is the panic-free projection of the checked
model: wherever the checked model returns a value or a parse failure, the
Option-valued model returns the same. -/
lemma parse_shortcut_date_agrees (now : Int) (s : String) (d : Int) :
    (parse_shortcut_date_checked now s = .ok d → parse_shortcut_date now s = some d)
    ∧ (parse_shortcut_date_checked now s = .noParse →
        parse_shortcut_date now s = Option.none) := by
  unfold parse_shortcut_date_checked parse_shortcut_date
  by_cases h1 : strToLower s = "today" ∨ strToLower s = "t"
  · simp only [if_pos h1]
    exact ⟨fun h => (by cases h; rfl), fun h => (by cases h)⟩
  · simp only [if_neg h1]
    by_cases h2 : strToLower s = "tomorrow" ∨ strToLower s = "tm"
    · simp only [if_pos h2]
      split_ifs with hr
      · exact ⟨fun h => (by cases h), fun h => (by cases h)⟩
      · exact ⟨fun h => (by cases h; rfl), fun h => (by cases h)⟩
    · simp only [if_neg h2]
      by_cases h3 : (strToLower s).data.getLast? = some 'd'
      · simp only [if_pos h3]
        cases hp : parseI64 (strToLower s).data.dropLast with
        | some n =>
          simp only [Option.map_some']
          unfold checkedDays
          split_ifs with hb hrange
          · exact ⟨fun h => (by cases h), fun h => (by cases h)⟩
          · exact ⟨fun h => (by cases h), fun h => (by cases h)⟩
          · exact ⟨fun h => (by cases h; rfl), fun h => (by cases h)⟩
        | none =>
          simp only [Option.map_none']
          have h4 : ¬ (strToLower s).data.getLast? = some 'w' := by
            rw [h3]
            simp
          simp only [if_neg h4]
          cases hw : weekdayOfName (strToLower s) with
          | none => exact ⟨fun h => (by cases h), fun _ => rfl⟩
          | some target =>
            split_ifs with hr
            · exact ⟨fun h => (by cases h), fun h => (by cases h)⟩
            · exact ⟨fun h => weekdaySearchChecked_ok target 7 (now + 1) d h,
                fun h => absurd h (weekdaySearchChecked_ne_noParse target 7 (now + 1))⟩
      · simp only [if_neg h3]
        by_cases h4 : (strToLower s).data.getLast? = some 'w'
        · simp only [if_pos h4]
          cases hp : parseI64 (strToLower s).data.dropLast with
          | some n =>
            simp only [Option.map_some']
            split_ifs with hovf
            · exact ⟨fun h => (by cases h), fun h => (by cases h)⟩
            · unfold checkedDays
              split_ifs with hb hrange
              · exact ⟨fun h => (by cases h), fun h => (by cases h)⟩
              · exact ⟨fun h => (by cases h), fun h => (by cases h)⟩
              · exact ⟨fun h => (by cases h; rfl), fun h => (by cases h)⟩
          | none =>
            simp only [Option.map_none']
            cases hw : weekdayOfName (strToLower s) with
            | none => exact ⟨fun h => (by cases h), fun _ => rfl⟩
            | some target =>
              split_ifs with hr
              · exact ⟨fun h => (by cases h), fun h => (by cases h)⟩
              · exact ⟨fun h => weekdaySearchChecked_ok target 7 (now + 1) d h,
                  fun h => absurd h (weekdaySearchChecked_ne_noParse target 7 (now + 1))⟩
        · simp only [if_neg h4]
          cases hw : weekdayOfName (strToLower s) with
          | none => exact ⟨fun h => (by cases h), fun _ => rfl⟩
          | some target =>
            split_ifs with hr
            · exact ⟨fun h => (by cases h), fun h => (by cases h)⟩
            · exact ⟨fun h => weekdaySearchChecked_ok target 7 (now + 1) d h,
                fun h => absurd h (weekdaySearchChecked_ne_noParse target 7 (now + 1))⟩

/-- Counterexample for C9: the operator input `"100000000d"` parses as
the i64 value 100000000, which is within `Duration::days`' bound but puts
the result (year ≈ 275760) beyond chrono's calendar range, so
`now + Duration::days(n)` panics instead of returning today + N — the
claim's `"<N>d"` equation does not hold for every integer N. -/
theorem c9_counterexample :
    parse_shortcut_date_checked 0 "100000000d" = DateResult.panicked
    ∧ parse_shortcut_date_checked 0 "100000000d" ≠ DateResult.ok (0 + 100000000)
    ∧ naiveDateMaxDay < 0 + 100000000 := by
  refine ⟨by decide, by decide, by decide⟩

/-- C9 (amended): `"t"`/`"today"` parse to today and `"tm"`/`"tomorrow"`
to tomorrow (when tomorrow is within chrono's calendar range); for every
i64-representable integer N whose offset stays within chrono's ranges —
N (resp. 7·N, which must also not overflow i64) within `Duration::days`'
day bound and the resulting date within the calendar range — `"<N>d"`
yields today plus N days and `"<N>w"` yields today plus 7·N days; an
in-range-i64 offset whose resulting date leaves the calendar range makes
the program panic instead of returning a value. -/
theorem c9_date_shortcuts (now : Int) :
    parse_shortcut_date_checked now "t" = .ok now
    ∧ parse_shortcut_date_checked now "today" = .ok now
    ∧ (naiveDateMinDay ≤ now + 1 → now + 1 ≤ naiveDateMaxDay →
        parse_shortcut_date_checked now "tm" = .ok (now + 1)
        ∧ parse_shortcut_date_checked now "tomorrow" = .ok (now + 1))
    ∧ (∀ N : Int, -(2 ^ 63) ≤ N → N < 2 ^ 63 →
        (-durDaysMax ≤ N → N ≤ durDaysMax →
          naiveDateMinDay ≤ now + N → now + N ≤ naiveDateMaxDay →
          parse_shortcut_date_checked now (String.mk ((renderInt N).data ++ ['d']))
            = .ok (now + N))
        ∧ (-durDaysMax ≤ N → N ≤ durDaysMax →
          (now + N < naiveDateMinDay ∨ naiveDateMaxDay < now + N) →
          parse_shortcut_date_checked now (String.mk ((renderInt N).data ++ ['d']))
            = .panicked)
        ∧ (-(2 ^ 63) ≤ N * 7 → N * 7 < 2 ^ 63 →
          -durDaysMax ≤ N * 7 → N * 7 ≤ durDaysMax →
          naiveDateMinDay ≤ now + N * 7 → now + N * 7 ≤ naiveDateMaxDay →
          parse_shortcut_date_checked now (String.mk ((renderInt N).data ++ ['w']))
            = .ok (now + N * 7))) := by
  refine ⟨rfl, rfl, fun hmin hmax => ⟨?_, ?_⟩, fun N h1 h2 => ?_⟩
  · show (if now + 1 < naiveDateMinDay ∨ naiveDateMaxDay < now + 1 then DateResult.panicked
        else DateResult.ok (now + 1)) = DateResult.ok (now + 1)
    rw [if_neg (by omega)]
  · show (if now + 1 < naiveDateMinDay ∨ naiveDateMaxDay < now + 1 then DateResult.panicked
        else DateResult.ok (now + 1)) = DateResult.ok (now + 1)
    rw [if_neg (by omega)]
  · obtain ⟨c0, rest, hc0, hct⟩ := renderInt_head N
    have hne_head : ∀ ca ra, (renderInt N).data = ca :: ra → ca ≠ 't' := by
      intro ca ra hca
      rw [hc0] at hca
      cases hca
      exact hct
    have hlow_d := strToLower_render_concat N 'd' rfl
    have h1d := render_concat_ne N 'd' "today" 't' ['o', 'd', 'a', 'y'] rfl hne_head
    have h2d := render_concat_ne N 'd' "t" 't' [] rfl hne_head
    have h3d := render_concat_ne N 'd' "tomorrow" 't' ['o', 'm', 'o', 'r', 'r', 'o', 'w'] rfl
      hne_head
    have h4d := render_concat_ne N 'd' "tm" 't' ['m'] rfl hne_head
    have hred_d : parse_shortcut_date_checked now (String.mk ((renderInt N).data ++ ['d']))
        = checkedDays now N := by
      unfold parse_shortcut_date_checked
      rw [hlow_d]
      rw [if_neg (by rintro (he | he) <;> [exact h1d he; exact h2d he])]
      rw [if_neg (by rintro (he | he) <;> [exact h3d he; exact h4d he])]
      rw [show (String.mk ((renderInt N).data ++ ['d'])).data = (renderInt N).data ++ ['d']
        from rfl]
      rw [List.getLast?_concat, List.dropLast_concat]
      rw [if_pos rfl, parseI64_renderInt N h1 h2]
      rfl
    have hlow_w := strToLower_render_concat N 'w' rfl
    have h1w := render_concat_ne N 'w' "today" 't' ['o', 'd', 'a', 'y'] rfl hne_head
    have h2w := render_concat_ne N 'w' "t" 't' [] rfl hne_head
    have h3w := render_concat_ne N 'w' "tomorrow" 't' ['o', 'm', 'o', 'r', 'r', 'o', 'w'] rfl
      hne_head
    have h4w := render_concat_ne N 'w' "tm" 't' ['m'] rfl hne_head
    have hred_w : parse_shortcut_date_checked now (String.mk ((renderInt N).data ++ ['w']))
        = (if N * 7 < -(2 ^ 63) ∨ 2 ^ 63 ≤ N * 7 then DateResult.panicked
           else checkedDays now (N * 7)) := by
      unfold parse_shortcut_date_checked
      rw [hlow_w]
      rw [if_neg (by rintro (he | he) <;> [exact h1w he; exact h2w he])]
      rw [if_neg (by rintro (he | he) <;> [exact h3w he; exact h4w he])]
      rw [show (String.mk ((renderInt N).data ++ ['w'])).data = (renderInt N).data ++ ['w']
        from rfl]
      rw [List.getLast?_concat, List.dropLast_concat]
      rw [if_neg (by decide), if_pos rfl, parseI64_renderInt N h1 h2]
      rfl
    refine ⟨fun hd1 hd2 hd3 hd4 => ?_, fun hd1 hd2 hd3 => ?_,
      fun hw1 hw2 hw3 hw4 hw5 hw6 => ?_⟩
    · rw [hred_d]
      unfold checkedDays
      rw [if_neg (by omega), if_neg (by omega)]
    · rw [hred_d]
      unfold checkedDays
      rw [if_neg (by omega), if_pos (by omega)]
    · rw [hred_w]
      rw [if_neg (by omega)]
      unfold checkedDays
      rw [if_neg (by omega), if_neg (by omega)]

/-- Witness for C9's amended statement: concrete in-range instances,
including a negative offset. -/
theorem c9_witness :
    parse_shortcut_date_checked 100 "t" = DateResult.ok 100
    ∧ parse_shortcut_date_checked 100 (String.mk ((renderInt 3).data ++ ['d']))
      = DateResult.ok 103
    ∧ parse_shortcut_date_checked 100 (String.mk ((renderInt (-2)).data ++ ['w']))
      = DateResult.ok 86 := by
  refine ⟨(c9_date_shortcuts 100).1, ?_, ?_⟩
  · have h := ((c9_date_shortcuts 100).2.2.2 3 (by decide) (by decide)).1
      (by decide) (by decide) (by decide) (by decide)
    simpa using h
  · have h := ((c9_date_shortcuts 100).2.2.2 (-2) (by decide) (by decide)).2.2
      (by decide) (by decide) (by decide) (by decide) (by decide) (by decide)
    simpa using h

lemma foldl_max_le_self (s : Int) (l : List Int) : s ≤ l.foldl max s := by
  induction l generalizing s with
  | nil => simp
  | cons x xs ih => exact le_trans (le_max_left s x) (ih (max s x))

lemma foldl_max_mem_le (l : List Int) : ∀ (s x : Int), x ∈ l → x ≤ l.foldl max s := by
  induction l with
  | nil => intro s x hx; cases hx
  | cons y ys ih =>
    intro s x hx
    cases hx with
    | head => exact le_trans (le_max_right s y) (foldl_max_le_self _ _)
    | tail _ hmem => exact ih (max s y) x hmem

lemma foldl_max_all_le (l : List Int) : ∀ s : Int, (∀ x ∈ l, x ≤ s) → l.foldl max s = s := by
  induction l with
  | nil => intro s _; rfl
  | cons y ys ih =>
    intro s h
    show ys.foldl max (max s y) = s
    rw [max_eq_left (h y (List.mem_cons_self y ys))]
    exact ih s fun x hx => h x (List.mem_cons_of_mem y hx)

lemma suggestion_score_nonneg (now : Int) (t : Task) : 0 ≤ suggestion_score now t := by
  unfold suggestion_score
  cases t.priority <;> cases t.limit <;> dsimp only <;> first
  | omega
  | (split_ifs <;> omega)

lemma suggestionLoop_no_improve (now : Int) :
    ∀ (ts : List Task) (b : Option Int) (s : Int),
      (∀ t ∈ ts.filter (fun x => !x.is_done), suggestion_score now t ≤ s) →
      suggestionLoop now ts b s = b := by
  intro ts
  induction ts with
  | nil => intro b s _; rfl
  | cons t ts ih =>
    intro b s h
    by_cases hd : t.is_done
    · have hf : (t :: ts).filter (fun x => !x.is_done) = ts.filter (fun x => !x.is_done) := by
        simp [List.filter_cons, hd]
      rw [hf] at h
      simp only [suggestionLoop, if_pos hd]
      exact ih b s h
    · have hf : (t :: ts).filter (fun x => !x.is_done)
          = t :: ts.filter (fun x => !x.is_done) := by
        simp [List.filter_cons, hd]
      rw [hf] at h
      have htle := h t (List.mem_cons_self t _)
      simp only [suggestionLoop, if_neg hd]
      rw [if_neg (by omega)]
      exact ih b s fun u hu => h u (List.mem_cons_of_mem t hu)

lemma suggestionLoop_improve (now : Int) :
    ∀ (ts : List Task) (b : Option Int) (s : Int),
      (∃ t ∈ ts.filter (fun x => !x.is_done), s < suggestion_score now t) →
      suggestionLoop now ts b s
        = ((ts.filter (fun x => !x.is_done)).find?
            (fun t => suggestion_score now t
              == ((ts.filter (fun x => !x.is_done)).map (suggestion_score now)).foldl max s)).map
            (fun t => t.id) := by
  intro ts
  induction ts with
  | nil =>
    rintro b s ⟨t, ht, _⟩
    cases ht
  | cons t ts ih =>
    intro b s hex
    by_cases hd : t.is_done
    · have hf : (t :: ts).filter (fun x => !x.is_done) = ts.filter (fun x => !x.is_done) := by
        simp [List.filter_cons, hd]
      rw [hf] at hex
      simp only [suggestionLoop, if_pos hd]
      rw [hf]
      exact ih b s hex
    · have hf : (t :: ts).filter (fun x => !x.is_done)
          = t :: ts.filter (fun x => !x.is_done) := by
        simp [List.filter_cons, hd]
      rw [hf] at hex
      simp only [suggestionLoop, if_neg hd]
      rw [hf]
      by_cases hsc : s < suggestion_score now t
      · rw [if_pos hsc]
        by_cases hall : ∀ u ∈ ts.filter (fun x => !x.is_done),
            suggestion_score now u ≤ suggestion_score now t
        · rw [suggestionLoop_no_improve now ts (some t.id) (suggestion_score now t) hall]
          have hm : ((t :: ts.filter (fun x => !x.is_done)).map (suggestion_score now)).foldl
              max s = suggestion_score now t := by
            show ((ts.filter (fun x => !x.is_done)).map (suggestion_score now)).foldl
              max (max s (suggestion_score now t)) = suggestion_score now t
            rw [max_eq_right (le_of_lt hsc)]
            apply foldl_max_all_le
            intro x hx
            obtain ⟨u, hu, hxu⟩ := List.mem_map.mp hx
            rw [← hxu]
            exact hall u hu
          rw [hm]
          rw [List.find?_cons_of_pos _ (by simp)]
          rfl
        · push_neg at hall
          obtain ⟨u, hu, hcu⟩ := hall
          rw [ih (some t.id) (suggestion_score now t) ⟨u, hu, hcu⟩]
          have hms : ((t :: ts.filter (fun x => !x.is_done)).map (suggestion_score now)).foldl
              max s
              = ((ts.filter (fun x => !x.is_done)).map (suggestion_score now)).foldl
                max (suggestion_score now t) := by
            show ((ts.filter (fun x => !x.is_done)).map (suggestion_score now)).foldl
              max (max s (suggestion_score now t)) = _
            rw [max_eq_right (le_of_lt hsc)]
          rw [hms]
          have hmgt : suggestion_score now t
              < ((ts.filter (fun x => !x.is_done)).map (suggestion_score now)).foldl
                max (suggestion_score now t) :=
            lt_of_lt_of_le hcu
              (foldl_max_mem_le _ _ _ (List.mem_map_of_mem (suggestion_score now) hu))
          rw [List.find?_cons_of_neg _ (by simp; omega)]
      · rw [if_neg hsc]
        have hex' : ∃ v ∈ ts.filter (fun x => !x.is_done), s < suggestion_score now v := by
          obtain ⟨v, hv, hsv⟩ := hex
          cases hv with
          | head => exact absurd hsv hsc
          | tail _ hmem => exact ⟨v, hmem, hsv⟩
        rw [ih b s hex']
        obtain ⟨v, hv, hsv⟩ := hex'
        have hmgt : s
            < ((ts.filter (fun x => !x.is_done)).map (suggestion_score now)).foldl max s :=
          lt_of_lt_of_le hsv
            (foldl_max_mem_le _ _ _ (List.mem_map_of_mem (suggestion_score now) hv))
        have hms : ((t :: ts.filter (fun x => !x.is_done)).map (suggestion_score now)).foldl
            max s
            = ((ts.filter (fun x => !x.is_done)).map (suggestion_score now)).foldl max s := by
          show ((ts.filter (fun x => !x.is_done)).map (suggestion_score now)).foldl
            max (max s (suggestion_score now t)) = _
          rw [max_eq_left (by omega)]
        rw [hms]
        rw [List.find?_cons_of_neg _ (by simp; omega)]

lemma best_suggestion_eq_amended (now : Int) (tasks : List Task) :
    best_suggestion now tasks = amended_best now tasks := by
  unfold best_suggestion amended_best
  by_cases hinc : tasks.filter (fun x => !x.is_done) = []
  · rw [suggestionLoop_no_improve now tasks Option.none (-1)
      (by rw [hinc]; intro t ht; cases ht)]
    rw [hinc]
    rfl
  · obtain ⟨t, ht⟩ := List.exists_mem_of_ne_nil _ hinc
    have hex : ∃ t ∈ tasks.filter (fun x => !x.is_done), (-1 : Int) < suggestion_score now t :=
      ⟨t, ht, lt_of_lt_of_le (by omega) (suggestion_score_nonneg now t)⟩
    rw [suggestionLoop_improve now tasks Option.none (-1) hex]

lemma jump_cases (now : Int) (app : App) :
    jump_to_suggestion now app = app
    ∨ ∃ pos, jump_to_suggestion now app = { app with selected := some pos } := by
  unfold jump_to_suggestion
  cases best_suggestion now app.tasks with
  | none => exact Or.inl rfl
  | some id =>
    dsimp only
    cases app.filtered_tasks.findIdx? (fun t => t.id == id) with
    | none => exact Or.inl rfl
    | some pos => exact Or.inr ⟨pos, rfl⟩

/-- Counterexample for C1: with `now = 0`, cache order [task 1 (Medium,
due in 48 h), task 2 (no priority, overdue by 30 min)], the scoring the
claim specifies makes task 2 the unique maximum (50 vs 40), but the code
suggests task 1: `num_hours` truncates the 30-minute overdue duration to
0 whole hours, which is not `< 0`, so the overdue band pays +40, not
+50. -/
theorem c1_counterexample :
    best_suggestion 0 c1exTasks = some 1
    ∧ spec_best 0 c1exTasks = some 2
    ∧ best_suggestion 0 c1exTasks ≠ spec_best 0 c1exTasks
    ∧ suggestion_score 0 (exTask 2 false .None (some (-1800))) = 40
    ∧ spec_score 0 (exTask 2 false .None (some (-1800))) = 50 := by
  refine ⟨by decide, by decide, by decide, by decide, by decide⟩

/-- C1 (amended): the suggestion scorer uses the whole-hour difference
truncated toward zero: +50 only when that difference is negative (overdue
by at least a full hour), +40 when it is in [0, 24), +20 when in
[24, 72), else +0, plus the priority band; `best_suggestion` returns the
id of the first incomplete task in cache order attaining the maximal such
score (`amended_best`); and the operation is advisory: it only moves the
cursor (to the suggested task's position in the filtered projection, when
present) and never mutates any task data. -/
theorem c1_suggestion_amended (now : Int) (tasks : List Task) (app : App) :
    best_suggestion now tasks = amended_best now tasks
    ∧ ((jump_to_suggestion now app).tasks = app.tasks
      ∧ (jump_to_suggestion now app).filtered_tasks = app.filtered_tasks
      ∧ (jump_to_suggestion now app).input_mode = app.input_mode
      ∧ (jump_to_suggestion now app).input_buffer = app.input_buffer
      ∧ (jump_to_suggestion now app).popup_data = app.popup_data
      ∧ (jump_to_suggestion now app).show_done = app.show_done
      ∧ (jump_to_suggestion now app).tag_filter = app.tag_filter
      ∧ (jump_to_suggestion now app).priority_filter = app.priority_filter
      ∧ (jump_to_suggestion now app).sort_order = app.sort_order)
    ∧ (∀ id pos, best_suggestion now app.tasks = some id →
        app.filtered_tasks.findIdx? (fun t => t.id == id) = some pos →
        (jump_to_suggestion now app).selected = some pos) := by
  refine ⟨best_suggestion_eq_amended now tasks, ?_, ?_⟩
  · rcases jump_cases now app with h | ⟨pos, h⟩ <;> rw [h] <;>
      exact ⟨rfl, rfl, rfl, rfl, rfl, rfl, rfl, rfl, rfl⟩
  · intro id pos hbs hfind
    unfold jump_to_suggestion
    rw [hbs]
    dsimp only
    rw [hfind]

/-- Witness for C1's amended statement: concrete evaluation agrees with
the declarative maximum, and the cursor lands on the suggested task. -/
theorem c1_witness :
    best_suggestion 0 c1exTasks = amended_best 0 c1exTasks
    ∧ amended_best 0 c1exTasks = some 1
    ∧ (jump_to_suggestion 0
        (exApp c1exTasks [exTask 1 false .Medium (some 172800)] Option.none)).selected
      = some 0 := by
  refine ⟨(c1_suggestion_amended 0 c1exTasks (exApp [] [] Option.none)).1, by decide, ?_⟩
  exact (c1_suggestion_amended 0 []
    (exApp c1exTasks [exTask 1 false .Medium (some 172800)] Option.none)).2.2 1 0
    (by decide) (by decide)

end Sakd
